import Mathlib

/-!
Verification development for the PixelCooked cooking-game simulation core
(`src/main.py`).  The Python source is shallowly embedded: geometry on exact
rationals, Python `set`s as duplicate-free lists whose order stands in for the
set's iteration order, the `random` module as an oracle stream `Nat → Nat`
(`random.random()` draws are dyadic rationals k/2^53, exactly CPython's
granularity; `randint(0, n-1)` draws are reduced mod n), and tkinter screen
operations dropped (they only draw; the geometry the code reads back is the
geometry it wrote, which the embedding tracks directly).
-/

namespace PixelCooked

/-! ### Geometry utilities (`intersects`, `distance`, `object_with_min_distance`) -/

/-- An axis-aligned bounding box, `(x1, y1)` top-left and `(x2, y2)` bottom-right,
as returned by `get_coords` in the source. -/
structure Box where
  x1 : ℚ
  y1 : ℚ
  x2 : ℚ
  y2 : ℚ
deriving DecidableEq, Repr

/-- `intersects(obj1, obj2)` from the source: with `a1,b1,a2,b2 = obj1.get_coords()`
and `x1,y1,x2,y2 = obj2.get_coords()`, it returns
`(x1 <= a1 <= x2 or x1 <= a2 <= x2) and (y1 <= b1 <= y2 or y1 <= b2 <= y2)`. -/
def intersects (obj1 obj2 : Box) : Bool :=
  decide (((obj2.x1 ≤ obj1.x1 ∧ obj1.x1 ≤ obj2.x2) ∨ (obj2.x1 ≤ obj1.x2 ∧ obj1.x2 ≤ obj2.x2)) ∧
    ((obj2.y1 ≤ obj1.y1 ∧ obj1.y1 ≤ obj2.y2) ∨ (obj2.y1 ≤ obj1.y2 ∧ obj1.y2 ≤ obj2.y2)))

/-- Written from the spec's words, for comparison with `intersects`:
"true iff the two axis-aligned boxes overlap on both axes (closed intervals)". -/
def specOverlaps (a b : Box) : Bool :=
  decide (a.x1 ≤ b.x2 ∧ b.x1 ≤ a.x2 ∧ a.y1 ≤ b.y2 ∧ b.y1 ≤ a.y2)

/-- The squared centroid distance between two boxes.  The source's `distance`
returns `sqrt` of this; `sqrt` is strictly monotone on nonnegative reals, so
minimisation and comparison of distances agree with minimisation and comparison
of squared distances (the theorems about nearest-selection state their
conclusions through `Real.sqrt` of this quantity). -/
def distance_sq (obj1 obj2 : Box) : ℚ :=
  ((obj1.x1 + obj1.x2) / 2 - (obj2.x1 + obj2.x2) / 2) ^ 2 +
    ((obj1.y1 + obj1.y2) / 2 - (obj2.y1 + obj2.y2) / 2) ^ 2

/-- `object_with_min_distance(obj, obj_list)` from the source: builds the list of
distances, takes `min` of it and returns the element at the first index of that
minimum (`list.index`).  `min([])` raises `ValueError` in Python; that
fail-fast path is modelled as `none`. -/
def object_with_min_distance (obj : Box) (obj_list : List Box) : Option Box :=
  match obj_list with
  | [] => none
  | o :: os =>
    let total_dist_list := (o :: os).map (fun i => distance_sq obj i)
    let m := (os.map (fun i => distance_sq obj i)).foldl min (distance_sq obj o)
    some ((o :: os).getD (total_dist_list.indexOf m) o)

/-! ### Ingredients and the transformation graph -/

/-- The `_type` tags of the concrete `Ingredient` subclasses (the abstract base
class, tag `'None'`, is never instantiated by the game). -/
inductive IngType
  | Sashimi | FishFillet | FriedFish | Fish | Salad | Lettuce | Crouton | BreadPiece | Toast | Bread
deriving DecidableEq, Repr

/-- `get_food_type`: the `_type` string each subclass sets in `__init__`. -/
def get_food_type : IngType → String
  | .Sashimi => "Sashimi"
  | .FishFillet => "FishFillet"
  | .FriedFish => "FriedFish"
  | .Fish => "Fish"
  | .Salad => "Salad"
  | .Lettuce => "Lettuce"
  | .Crouton => "Crouton"
  | .BreadPiece => "BreadPiece"
  | .Toast => "Toast"
  | .Bread => "Bread"

/-- An `Ingredient` instance: its bounding box (the oval the class draws),
its type tag, the `can_chop` / `can_cook` capability flags, and the `_player`
back-reference (owner id, `None` when loose). -/
structure Ingredient where
  box : Box
  itype : IngType
  can_chop : Bool
  can_cook : Bool
  player : Option Nat
deriving DecidableEq, Repr

/-- Constructor of each `Ingredient` subclass at top-left `(x, y)` with the given
side length: capability flags exactly as each `__init__` passes them, no owner. -/
def mk_ingredient (t : IngType) (x y length : ℚ) : Ingredient :=
  { box := ⟨x, y, x + length, y + length⟩
    itype := t
    can_chop := t = .Fish ∨ t = .FriedFish ∨ t = .Lettuce ∨ t = .Bread
    can_cook := t = .Fish ∨ t = .BreadPiece ∨ t = .Bread
    player := none }

/-- `chop()`: the base class returns `self`; `Fish`, `FriedFish`, `Lettuce` and
`Bread` override it, deleting the old oval and creating the product instance at
the same top-left corner `(x1, y1)` with the same side length `x2 - x1`. -/
def chop (i : Ingredient) : Ingredient :=
  match i.itype with
  | .Fish => mk_ingredient .Sashimi i.box.x1 i.box.y1 (i.box.x2 - i.box.x1)
  | .FriedFish => mk_ingredient .FishFillet i.box.x1 i.box.y1 (i.box.x2 - i.box.x1)
  | .Lettuce => mk_ingredient .Salad i.box.x1 i.box.y1 (i.box.x2 - i.box.x1)
  | .Bread => mk_ingredient .BreadPiece i.box.x1 i.box.y1 (i.box.x2 - i.box.x1)
  | _ => i

/-- `cook()`: the base class returns `self`; `Fish`, `BreadPiece` and `Bread`
override it analogously to `chop`. -/
def cook (i : Ingredient) : Ingredient :=
  match i.itype with
  | .Fish => mk_ingredient .FriedFish i.box.x1 i.box.y1 (i.box.x2 - i.box.x1)
  | .BreadPiece => mk_ingredient .Crouton i.box.x1 i.box.y1 (i.box.x2 - i.box.x1)
  | .Bread => mk_ingredient .Toast i.box.x1 i.box.y1 (i.box.x2 - i.box.x1)
  | _ => i

/-- `_INGREDIENT_SIZE_PERCENT` from the source. -/
def ingredient_size_percent : ℚ := 6 / 10

/-- `Ingredient.moveto(x, y)`: tkinter `moveto` moves the shape so its top-left
corner is at `(x, y)`, preserving its size. -/
def ing_moveto (i : Ingredient) (x y : ℚ) : Ingredient :=
  { i with box := ⟨x, y, x + (i.box.x2 - i.box.x1), y + (i.box.y2 - i.box.y1)⟩ }

/-- `Ingredient.move(x, y)`: relative move by `(x, y)`. -/
def ing_move (i : Ingredient) (x y : ℚ) : Ingredient :=
  { i with box := ⟨i.box.x1 + x, i.box.y1 + y, i.box.x2 + x, i.box.y2 + y⟩ }

/-- `Ingredient.drop(x=None, y=None)` as called from `Player.drop_ingredient()`
with no coordinates: the position is untouched and the owner is cleared. -/
def ing_drop (i : Ingredient) : Ingredient :=
  { i with player := none }

/-! ### Plain blocks (`Block`) -/

/-- A plain `Block`: its bounding box and the optional ingredient placed on it. -/
structure BlockS where
  box : Box
  ingredient : Option Ingredient
deriving DecidableEq, Repr

/-- `Block.receive_ingredient(ingredient)`: stores the ingredient only when the
block holds none (`if not self.has_ingredient()`), then unconditionally moves it
to the centred position on the block.  Returns the updated block and the moved
ingredient (the same object the caller passed, mutated in place in Python). -/
def block_receive (b : BlockS) (ing : Ingredient) : BlockS × Ingredient :=
  let moved := ing_moveto ing
    (b.box.x1 + (1 - ingredient_size_percent) / 2 * (b.box.x2 - b.box.x1))
    (b.box.y1 + (1 - ingredient_size_percent) / 2 * (b.box.y2 - b.box.y1))
  if b.ingredient.isSome then (b, moved) else ({ b with ingredient := some moved }, moved)

/-- The `Case 3` generic-drop arm of `Player.interact` for a non-crate,
non-process block: `ingredient = self._ingredient; self.drop_ingredient();
block.receive_ingredient(ingredient)`.  Input: the carried ingredient and the
target block; output: the player's (now empty) slot, the updated block, and the
dropped-then-received ingredient. -/
def interact_case3 (carried : Ingredient) (b : BlockS) :
    Option Ingredient × BlockS × Ingredient :=
  let dropped := ing_drop carried
  let r := block_receive b dropped
  (none, r.1, r.2)

/-! ### Process blocks (`ProcessBlock`) and step 3 of `update_game_frame` -/

/-- A `ProcessBlock` (`ChoppingBlock` when `is_cooking = false`, `CookingBlock`
when `true`): countdown timer, its configured maximum, the held ingredient and
the `_to_process` flag. -/
structure PBlockS where
  timer : ℚ
  max_time : ℚ
  is_cooking : Bool
  ingredient : Option Ingredient
  to_process : Bool
deriving DecidableEq, Repr

/-- `ProcessBlock.update_timer(dt)`: decrements the timer by `dt` and returns
`0` if the (already decremented) timer is negative, else the timer.  It does NOT
reset the timer or touch the ingredient. -/
def update_timer (b : PBlockS) (dt : ℚ) : ℚ × PBlockS :=
  let b2 := { b with timer := b.timer - dt }
  (if b2.timer < 0 then 0 else b2.timer, b2)

/-- `ProcessBlock.reset_timer()`. -/
def reset_timer (b : PBlockS) : PBlockS :=
  { b with timer := b.max_time }

/-- The `dt` constant the game loop passes to `update_timer`: `0.1/_REFRESH_IN_MS`
with `_REFRESH_IN_MS = 15`. -/
def step3_dt : ℚ := (1 / 10) / 15

/-- The block's bound `process` callable: `cook` for a `CookingBlock`, `chop`
for a `ChoppingBlock`. -/
def process_fn (b : PBlockS) (i : Ingredient) : Ingredient :=
  if b.is_cooking then cook i else chop i

/-- Step 3 of `update_game_frame` ("Update timer for each process block"):
the loop body runs `update_timer` twice (once inside a `print`, once in the
`if` condition), invokes `block._process(block._ingredient)` when the returned
timer is `0` — DISCARDING the result, so `block._ingredient` is never
reassigned — clears `_to_process`, and then hits an unconditional `break`, so
every block after the first is untouched. -/
def update_process_blocks : List PBlockS → List PBlockS
  | [] => []
  | b :: rest =>
    if b.ingredient.isSome then
      let r1 := update_timer b step3_dt
      let r2 := update_timer r1.2 step3_dt
      if r2.1 = 0 then
        let _discarded := (r2.2.ingredient.map (process_fn r2.2)).getD (mk_ingredient .Fish 0 0 0)
        { r2.2 with to_process := false } :: rest
      else
        r2.2 :: rest
    else
      b :: rest

/-! ### The serving block (`ServingBlock`) -/

/-- An oracle for the `random` module: an arbitrary stream of naturals, indexed
by how many draws have been consumed. -/
abbrev Rng := Nat → Nat

/-- A `random.random()` draw read from stream position `i`: CPython returns
exactly the dyadic rationals `k / 2^53`, `0 ≤ k < 2^53`. -/
def randFloat (g : Rng) (i : Nat) : ℚ :=
  ((g i % 2 ^ 53 : ℕ) : ℚ) / 2 ^ 53

/-- The comparison `random.random() <= p` in exact integer form (cross-multiplied
by the positive denominators); `randFloatLe_iff` below proves it equal to
`randFloat g i ≤ p`. -/
def randFloatLe (g : Rng) (i : Nat) (p : ℚ) : Bool :=
  decide ((((g i % 2 ^ 53 : ℕ) : ℤ) * (p.den : ℤ)) ≤ p.num * 2 ^ 53)

/-- A `random.randint(0, n - 1)` draw read from stream position `i`. -/
def randInt (g : Rng) (i : Nat) (n : Nat) : Nat :=
  g i % n

/-- An order tuple `(name, ingredient_1, ingredient_2, ingredient_3)`; a slot
holding `"-"` is the "none required" sentinel. -/
structure Order where
  name : String
  ing1 : String
  ing2 : String
  ing3 : String
deriving DecidableEq, Repr

/-- The fixed recipe catalogue in `generate_order`. -/
def list_of_orders : List Order :=
  [⟨"Sashimi", "Sashimi", "-", "-"⟩,
   ⟨"FishFillet", "FishFillet", "-", "-"⟩,
   ⟨"SashimiSalad", "Sashimi", "Salad", "-"⟩,
   ⟨"Salad", "Salad", "-", "-"⟩,
   ⟨"Crouton", "Crouton", "-", "-"⟩,
   ⟨"CroutonSalad", "Salad", "Crouton", "-"⟩,
   ⟨"FishFilletSandwich", "FishFillet", "Salad", "Toast"⟩,
   ⟨"Toast", "Toast", "-", "-"⟩]

/-- `generate_order`: `random.choice` over the catalogue, modelled as one index
draw from the oracle. -/
def generate_order (g : Rng) (i : Nat) : Order :=
  list_of_orders.getD (randInt g i list_of_orders.length) ⟨"-", "-", "-", "-"⟩

/-- The keys of `self.container` as initialised in `ServingBlock.__init__` —
note the key `"Breadpiece"` (lower-case p), while `BreadPiece.__init__` sets
`self._type = 'BreadPiece'`. -/
def containerKeys : List String :=
  ["Sashimi", "FishFillet", "FriedFish", "Fish", "Salad", "Lettuce", "Crouton",
   "Breadpiece", "Toast", "Bread"]

/-- `self.container[k] += 1`: a missing key raises `KeyError`, modelled as
`none`.  Counts are Python ints (`ℤ`). -/
def dictIncr (c : String → ℤ) (k : String) : Option (String → ℤ) :=
  if k ∈ containerKeys then some (fun k2 => if k2 = k then c k + 1 else c k2) else none

/-- `self.container[k] -= 1`, same `KeyError` modelling. -/
def dictDecr (c : String → ℤ) (k : String) : Option (String → ℤ) :=
  if k ∈ containerKeys then some (fun k2 => if k2 = k then c k - 1 else c k2) else none

/-- The serving block's mutable state: the stock `container` (a total function;
only the ten `containerKeys` are ever readable, dict access goes through
`dictIncr`/`dictDecr`/`slotTest`), the queue `current_order` and the score. -/
structure ServingS where
  container : String → ℤ
  current_order : List Order
  score : ℤ

/-- One conjunct of `check_order`'s test, with Python's short-circuit `or`:
`order_slot == '-' or container[order_slot] > 0` (the dict is only subscripted
when the slot is not the sentinel). -/
def slotTest (c : String → ℤ) (k : String) : Option Bool :=
  if k = "-" then some true
  else if k ∈ containerKeys then some (0 < c k) else none

/-- The decrement arm of `check_order`'s fulfilment loop:
`if slot == '-': pass else: container[slot] -= 1`. -/
def slotDecr (c : String → ℤ) (k : String) : Option (String → ℤ) :=
  if k = "-" then some c else dictDecr c k

/-- `ServingBlock.update_order()`: shift the queue up by one and generate a new
order at the back (one oracle draw).  `current_order` always has exactly 3
entries; indexing a shorter list would raise in Python, modelled as `none`. -/
def update_order (g : Rng) (idx : Nat) (s : ServingS) : Option (ServingS × Nat) :=
  match s.current_order with
  | o0 :: o1 :: o2 :: rest =>
    let _ := o0
    some ({ s with current_order := o1 :: o2 :: generate_order g idx :: rest }, idx + 1)
  | _ => none

/-- `ServingBlock.check_order()`: count how many of the front order's three
slots are satisfied; on 3/3, decrement each non-sentinel slot, advance the
queue (`update_order`) and increment the score.  Display updates are dropped. -/
def check_order (g : Rng) (idx : Nat) (s : ServingS) : Option (ServingS × Nat) := do
  match s.current_order with
  | [] => none
  | o0 :: _ =>
    let b1 ← slotTest s.container o0.ing1
    let b2 ← slotTest s.container o0.ing2
    let b3 ← slotTest s.container o0.ing3
    let x : Nat := (if b1 then 1 else 0) + (if b2 then 1 else 0) + (if b3 then 1 else 0)
    if x = 3 then
      let c1 ← slotDecr s.container o0.ing1
      let c2 ← slotDecr c1 o0.ing2
      let c3 ← slotDecr c2 o0.ing3
      let r ← update_order g idx { s with container := c3 }
      some ({ r.1 with score := r.1.score + 1 }, r.2)
    else
      some (s, idx)

/-- `ServingBlock.receive_ingredient(ingredient)`: increment the stock counter
for the delivered item's type tag (a `KeyError` for a tag that is not a
container key), delete the item, then run `check_order`.  The menu redraw is
display-only and dropped. -/
def serving_receive (g : Rng) (idx : Nat) (s : ServingS) (item : IngType) :
    Option (ServingS × Nat) := do
  let c ← dictIncr s.container (get_food_type item)
  check_order g idx { s with container := c }

/-! ### Player movement (`Player.move`) -/

/-- The slice of `Player` state that `Player.move` reads and writes: the
bounding box, the velocity components, and the carried ingredient's box. -/
structure PlayerS where
  box : Box
  vx : ℚ
  vy : ℚ
  ing : Option Box
deriving DecidableEq, Repr

/-- Shift a box by `(dx, dy)`. -/
def shiftBox (b : Box) (dx dy : ℚ) : Box :=
  ⟨b.x1 + dx, b.y1 + dy, b.x2 + dx, b.y2 + dy⟩

/-- Shift a player and (in lock-step) any carried ingredient, as
`self._screen.move(self._player, dx, dy)` plus `self._ingredient.move(dx, dy)`. -/
def shiftP (p : PlayerS) (dx dy : ℚ) : PlayerS :=
  { p with box := shiftBox p.box dx dy, ing := p.ing.map (fun b => shiftBox b dx dy) }

/-- The collision scan of `Player.move`: `for player in players: if
intersects(self, block) or intersects(self, player) == True: ...revert...;
break`.  With NO other players the loop body never runs, so nothing is ever
reverted; otherwise the result says whether the first iteration that detects a
collision exists. -/
def collide_any (selfBox : Box) (block : Box) : List Box → Bool
  | [] => false
  | o :: os =>
    if intersects selfBox block || intersects selfBox o then true
    else collide_any selfBox block os

/-- `Player.move(block, players)`: apply the vertical velocity (carried
ingredient in lock-step), revert it if the collision scan fires, then do the
same for the horizontal velocity. -/
def player_move (p : PlayerS) (block : Box) (others : List Box) : PlayerS :=
  let p1 := shiftP p 0 p.vy
  let p2 := if collide_any p1.box block others then shiftP p1 0 (-p.vy) else p1
  let p3 := shiftP p2 p.vx 0
  let p4 := if collide_any p3.box block others then shiftP p3 (-p.vx) 0 else p3
  p4

/-! ### Map generation: `is_map_accessible`, `is_block_accessible`, `generate_map` -/

/-- A grid coordinate `(row, col)`. -/
abbrev Cell := ℤ × ℤ

/-- `_DIRECTIONS` from the source, iterated in this order. -/
def DIRECTIONS : List (ℤ × ℤ) := [(0, -1), (0, 1), (-1, 0), (1, 0)]

/-- Python `set.add`: append when absent (lists model sets, order = iteration
order). -/
def setAdd (l : List Cell) (c : Cell) : List Cell :=
  if c ∈ l then l else l ++ [c]

/-- The inner direction loop of `is_map_accessible`'s BFS sweep: for each of the
4 neighbours of `c`, if it is still an empty space, discard it from `spaces`
and append it to `nxt`. -/
def expand_dirs (c : Cell) : List (ℤ × ℤ) → List Cell → List Cell × List Cell
  | [], spaces => ([], spaces)
  | d :: ds, spaces =>
    let n : Cell := (c.1 + d.1, c.2 + d.2)
    if n ∈ spaces then
      let r := expand_dirs c ds (spaces.erase n)
      (n :: r.1, r.2)
    else
      expand_dirs c ds spaces

/-- One frontier step of the BFS: run `expand_dirs` for every cell of `curr`,
threading `spaces` through and concatenating the collected next frontier. -/
def bfs_expand : List Cell → List Cell → List Cell × List Cell
  | [], spaces => ([], spaces)
  | c :: cs, spaces =>
    let r1 := expand_dirs c DIRECTIONS spaces
    let r2 := bfs_expand cs r1.2
    (r1.1 ++ r2.1, r2.2)

/-- The `while curr and spaces` loop of `is_map_accessible`, fuelled.  A
frontier step that discards nothing produces an empty `nxt`, after which the
loop is stuck, so `|spaces| + 1` steps always reach the loop's exit state. -/
def bfs_loop : Nat → List Cell → List Cell → List Cell
  | 0, _, spaces => spaces
  | _ + 1, [], spaces => spaces
  | fuel + 1, c :: cs, spaces =>
    if spaces = [] then spaces
    else
      let r := bfs_expand (c :: cs) spaces
      bfs_loop fuel r.1 r.2

/-- `is_map_accessible(spaces)`: pop an element, BFS from it discarding every
reached space, and report whether every space was reached.  (Python `set.pop`
removes an arbitrary element; the model pops the list head.  Which element
starts the sweep does not affect whether the sweep exhausts `spaces`.) -/
def is_map_accessible (spaces : List Cell) : Bool :=
  match spaces with
  | [] => true
  | s0 :: rest => decide (bfs_loop (rest.length + 1) [s0] rest = [])

/-- `is_block_accessible(row, col, grid_length, grid_width, blocks, placeholders)`:
true when at least one 4-neighbour is in range and neither a placeholder nor a
block. -/
def is_block_accessible (row col : ℤ) (grid_length grid_width : Nat)
    (blocks placeholders : List Cell) : Bool :=
  DIRECTIONS.any (fun d =>
    decide (0 ≤ col + d.2 ∧ col + d.2 < (grid_length : ℤ) ∧
      0 ≤ row + d.1 ∧ row + d.1 < (grid_width : ℤ) ∧
      ((row + d.1, col + d.2) : Cell) ∉ placeholders ∧
      ((row + d.1, col + d.2) : Cell) ∉ blocks))

/-- The set comprehension in `generate_map`'s accessibility gate:
`{(r, c) for r in range(grid_width) for c in range(grid_length) if (r, c) not in
placeholders and (r, c) not in blocks and (r, c) != (row, col)}`. -/
def free_spaces (grid_length grid_width : Nat) (ph bl : List Cell) (cand : Cell) :
    List Cell :=
  (List.range grid_width).flatMap (fun (r : ℕ) =>
    (List.range grid_length).filterMap (fun (c : ℕ) =>
      let cell : Cell := (((r : ℕ) : ℤ), ((c : ℕ) : ℤ))
      if cell ∉ ph ∧ cell ∉ bl ∧ cell ≠ cand then some cell else none))

/-- The free cells of a layout (no excluded candidate): the gate comprehension
with an off-grid dummy exclusion. -/
def map_free (grid_length grid_width : Nat) (ph bl : List Cell) : List Cell :=
  free_spaces grid_length grid_width ph bl (-1, -1)

/-- `coord = random.randint(0, grid_length*grid_width - 1);
row, col = divmod(coord, grid_length)`. -/
def draw_cell (g : Rng) (i : Nat) (grid_length grid_width : Nat) : Cell :=
  let coord := randInt g i (grid_length * grid_width)
  (((coord / grid_length : ℕ) : ℤ), ((coord % grid_length : ℕ) : ℤ))

/-- The retry condition on a candidate cell: already occupied, or removing it
from the free cells would disconnect them. -/
def bad_candidate (grid_length grid_width : Nat) (ph bl : List Cell) (cand : Cell) :
    Bool :=
  decide (cand ∈ bl) || decide (cand ∈ ph) ||
    ! is_map_accessible (free_spaces grid_length grid_width ph bl cand)

/-- The body of the candidate retry loop, structurally recursive on the number
`10 - attempts` of retries the `while attempts < 10` guard still allows (when
the fuel is 0 the guard is false and the loop exits at once, so the 0 arm and
the guard-false arm coincide). -/
def pick_loop_aux (g : Rng) (grid_length grid_width : Nat) (ph bl : List Cell) :
    Nat → Cell → Nat → Nat → Cell × Nat × Nat
  | 0, cand, attempts, idx => (cand, attempts, idx)
  | n + 1, cand, attempts, idx =>
    if attempts < 10 ∧ bad_candidate grid_length grid_width ph bl cand = true then
      pick_loop_aux g grid_length grid_width ph bl n
        (draw_cell g idx grid_length grid_width) (attempts + 1) (idx + 1)
    else
      (cand, attempts, idx)

/-- The candidate retry loop (`while attempts < 10 and (...bad...)`): keep
redrawing, incrementing `attempts`, until the candidate is good or `attempts`
reaches 10.  Returns the final candidate, `attempts` and stream position. -/
def pick_loop (g : Rng) (grid_length grid_width : Nat) (ph bl : List Cell)
    (cand : Cell) (attempts idx : Nat) : Cell × Nat × Nat :=
  pick_loop_aux g grid_length grid_width ph bl (10 - attempts) cand attempts idx

/-- Placing an accepted candidate: `blocks.add` when `is_block_accessible`,
else `placeholders.add`.  Returns `(placeholders, blocks)`. -/
def classify_place (grid_length grid_width : Nat) (ph bl : List Cell) (cand : Cell) :
    List Cell × List Cell :=
  if is_block_accessible cand.1 cand.2 grid_length grid_width bl ph then
    (ph, setAdd bl cand)
  else
    (setAdd ph cand, bl)

/-- The post-placement downgrade sweep: every neighbouring block that has lost
its last accessible neighbour is moved from `blocks` to `placeholders`
(sequentially, in `_DIRECTIONS` order, against the evolving sets). -/
def downgrade_dirs (grid_length grid_width : Nat) (cand : Cell) :
    List (ℤ × ℤ) → List Cell → List Cell → List Cell × List Cell
  | [], ph, bl => (ph, bl)
  | d :: ds, ph, bl =>
    let n : Cell := (cand.1 + d.1, cand.2 + d.2)
    if n ∈ bl ∧ ¬ is_block_accessible n.1 n.2 grid_length grid_width bl ph = true then
      downgrade_dirs grid_length grid_width cand ds (setAdd ph n) (bl.erase n)
    else
      downgrade_dirs grid_length grid_width cand ds ph bl

/-- The mutable state of `generate_map`'s growth loop. -/
structure GenSt where
  placeholders : List Cell
  blocks : List Cell
  attempts : Nat
  idx : Nat
deriving DecidableEq, Repr

/-- How a `generate_map` run can fail to produce a map: the model ran out of
fuel (a model artifact — real runs of the terminating loop correspond to some
sufficient fuel), or `random.randint(0, len(blocks)-1)` was reached with
`blocks` empty, which raises `ValueError` in Python. -/
inductive GenErr
  | outOfFuel
  | emptyDraw
deriving DecidableEq, Repr

deriving instance DecidableEq for Except

/-- The growth loop `while attempts < 3 or len(blocks) < 7`.  One fuel unit per
iteration.  A placement attempt draws a float (one stream slot) and a first
candidate (one slot), runs the retry loop, and either `break`s out of the loop
when `attempts` hit 10 (returning the state built so far) or places the
candidate, downgrades trapped neighbours, and resets `attempts` to 0.  A
probability miss just bumps `attempts`. -/
def gen_loop (g : Rng) (grid_length grid_width : Nat) (probability : ℚ) :
    Nat → GenSt → Except GenErr GenSt
  | 0, _ => .error .outOfFuel
  | fuel + 1, st =>
    if st.attempts < 3 ∨ st.blocks.length < 7 then
      if randFloatLe g st.idx (if 7 ≤ st.blocks.length then probability else 1) then
        let c0 := draw_cell g (st.idx + 1) grid_length grid_width
        let r := pick_loop g grid_length grid_width st.placeholders st.blocks c0
          st.attempts (st.idx + 2)
        if r.2.1 = 10 then
          .ok { st with attempts := r.2.1, idx := r.2.2 }
        else
          let pb := classify_place grid_length grid_width st.placeholders st.blocks r.1
          let pb2 := downgrade_dirs grid_length grid_width r.1 DIRECTIONS pb.1 pb.2
          gen_loop g grid_length grid_width probability fuel ⟨pb2.1, pb2.2, 0, r.2.2⟩
      else
        gen_loop g grid_length grid_width probability fuel
          { st with attempts := st.attempts + 1, idx := st.idx + 1 }
    else
      .ok st

/-- One draw of the specialisation phase:
`crate = list(blocks)[random.randint(0, len(blocks)-1)]; blocks.remove(crate)`.
With `blocks` empty, `randint(0, -1)` raises `ValueError`. -/
def draw_one (g : Rng) (idx : Nat) (bl : List Cell) :
    Except GenErr (Cell × List Cell × Nat) :=
  if bl.length = 0 then .error .emptyDraw
  else
    let c := bl.getD (randInt g idx bl.length) (0, 0)
    .ok (c, bl.erase c, idx + 1)

/-- The body of the promotion loop, structurally recursive on `blocks.length`
(each successful draw removes one block, so the length is exactly the number of
iterations the `while blocks` guard still allows; at fuel 0 the list is empty
and the 0 arm coincides with the guard-false arm). -/
def promote_aux (g : Rng) (probability : ℚ) :
    Nat → List Cell → List Cell → Nat → List Cell × List Cell × Nat
  | 0, bl, acc, idx => (bl, acc, idx)
  | n + 1, bl, acc, idx =>
    if bl = [] then (bl, acc, idx)
    else if randFloatLe g idx probability then
      let c := bl.getD (randInt g (idx + 1) bl.length) (0, 0)
      promote_aux g probability n (bl.erase c) (acc ++ [c]) (idx + 2)
    else
      (bl, acc, idx + 1)

/-- The promotion loop `while blocks and random.random() <= probability`:
Python's short-circuit `and` consumes a float draw only when `blocks` is
non-empty; on success one more block is drawn, removed and appended. -/
def promote_loop (g : Rng) (probability : ℚ) (bl acc : List Cell) (idx : Nat) :
    List Cell × List Cell × Nat :=
  promote_aux g probability bl.length bl acc idx

/-- The four corner placeholders (a Python set: duplicates collapse on tiny
grids). -/
def init_placeholders (grid_length grid_width : Nat) : List Cell :=
  [((0 : ℤ), (0 : ℤ)), (0, (grid_length : ℤ) - 1), ((grid_width : ℤ) - 1, 0),
    ((grid_width : ℤ) - 1, (grid_length : ℤ) - 1)].foldl setAdd []

/-- The border blocks: `(row, 0)` and `(row, grid_length - 1)` for
`row in range(1, grid_width - 1)`, then `(0, col)` and `(grid_width - 1, col)`
for `col in range(1, grid_length - 1)`, in insertion order. -/
def init_blocks (grid_length grid_width : Nat) : List Cell :=
  (List.range (grid_length - 2)).foldl (fun bl (c : ℕ) =>
      setAdd (setAdd bl ((0 : ℤ), ((c : ℕ) : ℤ) + 1)) ((grid_width : ℤ) - 1, ((c : ℕ) : ℤ) + 1))
    ((List.range (grid_width - 2)).foldl (fun bl (r : ℕ) =>
      setAdd (setAdd bl (((r : ℕ) : ℤ) + 1, (0 : ℤ)))
        (((r : ℕ) : ℤ) + 1, (grid_length : ℤ) - 1)) [])

/-- The value `generate_map` returns: the five disjoint coordinate-keyed maps,
with the five uniquely-assigned specialised cells spelled out. -/
structure MapResult where
  placeholders : List Cell
  plain : List Cell
  chopping : List Cell
  cooking : List Cell
  fish_crate : Cell
  lettuce_crate : Cell
  bread_crate : Cell
  serving : Cell
  trash : Cell
deriving DecidableEq, Repr

/-- `generate_map(screen, block_length, grid_length, grid_width, probability)`:
border setup, the growth loop, seven role draws (`individual_blocks`; the two
`pop()`s take the last two as the first cooking and chopping blocks, the
remaining five destructure in order as fish crate, lettuce crate, bread crate,
serving block, trash block), then the two promotion loops.  Pixel geometry
(`block_length`) only scales drawing and is dropped. -/
def generate_map (g : Rng) (grid_length grid_width : Nat) (probability : ℚ)
    (fuel : Nat) : Except GenErr MapResult := do
  let st ← gen_loop g grid_length grid_width probability fuel
    ⟨init_placeholders grid_length grid_width, init_blocks grid_length grid_width, 0, 0⟩
  let r0 ← draw_one g st.idx st.blocks
  let r1 ← draw_one g r0.2.2 r0.2.1
  let r2 ← draw_one g r1.2.2 r1.2.1
  let r3 ← draw_one g r2.2.2 r2.2.1
  let r4 ← draw_one g r3.2.2 r3.2.1
  let r5 ← draw_one g r4.2.2 r4.2.1
  let r6 ← draw_one g r5.2.2 r5.2.1
  let pc := promote_loop g probability r6.2.1 [r5.1] r6.2.2
  let pk := promote_loop g probability pc.1 [r6.1] pc.2.2
  return { placeholders := st.placeholders
           plain := pk.1
           chopping := pc.2.1
           cooking := pk.2.1
           fish_crate := r0.1
           lettuce_crate := r1.1
           bread_crate := r2.1
           serving := r3.1
           trash := r4.1 }

/-- The cells occupied by any non-placeholder station of a result. -/
def occupied_blocks (m : MapResult) : List Cell :=
  [m.fish_crate, m.lettuce_crate, m.bread_crate, m.serving, m.trash] ++
    m.chopping ++ m.cooking ++ m.plain

/-- The free cells of a generated map: grid cells that carry no station and no
placeholder. -/
def map_free_of (grid_length grid_width : Nat) (m : MapResult) : List Cell :=
  map_free grid_length grid_width m.placeholders (occupied_blocks m)

/-- 4-adjacency of two cells. -/
def adjacent (a b : Cell) : Prop :=
  (b.1 - a.1, b.2 - a.2) ∈ DIRECTIONS

/-- One free-floor move: both endpoints free, 4-adjacent. -/
def cstep (l : List Cell) (a b : Cell) : Prop :=
  a ∈ l ∧ b ∈ l ∧ adjacent a b

/-- Reachability along free cells. -/
def reach (l : List Cell) (a b : Cell) : Prop :=
  Relation.ReflTransGen (cstep l) a b

/-- Every cell of the list is reachable from every other along the list. -/
def connectedL (l : List Cell) : Prop :=
  ∀ a ∈ l, ∀ b ∈ l, reach l a b

/-- The role a returned station entry carries. -/
inductive Role
  | placeholder | plain | chopping | cooking | fishCrate | lettuceCrate | breadCrate
  | serving | trash
deriving DecidableEq, Repr

/-- All station entries of a result, as (cell, role) pairs, mirroring the five
returned coordinate-keyed maps. -/
def all_stations (m : MapResult) : List (Cell × Role) :=
  m.placeholders.map (fun c => (c, Role.placeholder)) ++
  m.plain.map (fun c => (c, Role.plain)) ++
  m.chopping.map (fun c => (c, Role.chopping)) ++
  m.cooking.map (fun c => (c, Role.cooking)) ++
  [(m.fish_crate, Role.fishCrate), (m.lettuce_crate, Role.lettuceCrate),
   (m.bread_crate, Role.breadCrate), (m.serving, Role.serving), (m.trash, Role.trash)]

/-! ## Theorems -/

/-! ### C7: the transformation graph -/

/-- C7: the chop/cook transformation functions realise exactly the fixed graph
(Fish –chop→ Sashimi, Fish –cook→ FriedFish, FriedFish –chop→ FishFillet,
Lettuce –chop→ Salad, Bread –chop→ BreadPiece, Bread –cook→ Toast,
BreadPiece –cook→ Crouton) and, for every item of a terminal type (Sashimi,
FishFillet, Salad, Crouton, Toast), chopping and cooking are no-ops returning
the very same item, in particular one of the same type. -/
theorem c7_transformation_graph :
    (∀ i : Ingredient, i.itype = .Fish → (chop i).itype = .Sashimi) ∧
    (∀ i : Ingredient, i.itype = .Fish → (cook i).itype = .FriedFish) ∧
    (∀ i : Ingredient, i.itype = .FriedFish → (chop i).itype = .FishFillet) ∧
    (∀ i : Ingredient, i.itype = .Lettuce → (chop i).itype = .Salad) ∧
    (∀ i : Ingredient, i.itype = .Bread → (chop i).itype = .BreadPiece) ∧
    (∀ i : Ingredient, i.itype = .Bread → (cook i).itype = .Toast) ∧
    (∀ i : Ingredient, i.itype = .BreadPiece → (cook i).itype = .Crouton) ∧
    (∀ i : Ingredient,
      (i.itype = .Sashimi ∨ i.itype = .FishFillet ∨ i.itype = .Salad ∨
        i.itype = .Crouton ∨ i.itype = .Toast) →
      chop i = i ∧ cook i = i) := by
  refine ⟨?_, ?_, ?_, ?_, ?_, ?_, ?_, ?_⟩
  all_goals intro i h
  case _ => simp [chop, h, mk_ingredient]
  case _ => simp [cook, h, mk_ingredient]
  case _ => simp [chop, h, mk_ingredient]
  case _ => simp [chop, h, mk_ingredient]
  case _ => simp [chop, h, mk_ingredient]
  case _ => simp [cook, h, mk_ingredient]
  case _ => simp [cook, h, mk_ingredient]
  case _ => rcases h with h | h | h | h | h <;> simp [chop, cook, h]

/-- Witness for C7 at a concrete raw fish. -/
theorem c7_transformation_graph_witness :
    (mk_ingredient .Fish 0 0 10).itype = .Fish ∧
      (chop (mk_ingredient .Fish 0 0 10)).itype = .Sashimi :=
  ⟨rfl, c7_transformation_graph.1 (mk_ingredient .Fish 0 0 10) rfl⟩

/-! ### C3: the bounding-box intersection test -/

/-- C3 counterexample: two boxes with sorted, nonnegative coordinates that
overlap on both axes (the second strictly inside the first), yet `intersects`
returns `false`: the code only tests whether a corner of its FIRST argument
lies in the second argument's span. -/
theorem c3_counterexample :
    ((0 : ℚ) ≤ 0 ∧ (0 : ℚ) ≤ 10 ∧ (4 : ℚ) ≤ 6) ∧
      specOverlaps ⟨0, 0, 10, 10⟩ ⟨4, 4, 6, 6⟩ = true ∧
      intersects ⟨0, 0, 10, 10⟩ ⟨4, 4, 6, 6⟩ = false := by
  refine ⟨by norm_num, ?_, ?_⟩ <;> decide

/-- One axis of the corrected characterisation of `intersects`. -/
theorem intersects_axis_iff (a1 a2 x1 x2 : ℚ) (hA : a1 ≤ a2) :
    ((x1 ≤ a1 ∧ a1 ≤ x2) ∨ (x1 ≤ a2 ∧ a2 ≤ x2)) ↔
      (a1 ≤ x2 ∧ x1 ≤ a2 ∧ ¬(a1 < x1 ∧ x2 < a2)) := by
  constructor
  · rintro (⟨h1, h2⟩ | ⟨h1, h2⟩)
    · exact ⟨h2, by linarith, fun hc => absurd h1 (by linarith [hc.1])⟩
    · exact ⟨by linarith, h1, fun hc => absurd h2 (by linarith [hc.2])⟩
  · rintro ⟨h1, h2, h3⟩
    push_neg at h3
    rcases le_or_lt x1 a1 with hc | hc
    · exact Or.inl ⟨hc, h1⟩
    · exact Or.inr ⟨h2, h3 hc⟩

/-- C3 (amended): for boxes with sorted coordinates, `intersects(A, B)` is true
iff, on each axis, the two spans intersect AND B's span is not strictly
contained in A's span.  (As stated the claim is false: it asserted plain
closed-interval overlap "including the case where one box strictly contains
the other", but when B lies strictly inside A on some axis the test misses the
overlap — see the counterexample.) -/
theorem c3_amended (a b : Box)
    (hax : a.x1 ≤ a.x2) (hay : a.y1 ≤ a.y2) (_hbx : b.x1 ≤ b.x2) (_hby : b.y1 ≤ b.y2) :
    intersects a b = true ↔
      ((a.x1 ≤ b.x2 ∧ b.x1 ≤ a.x2 ∧ ¬(a.x1 < b.x1 ∧ b.x2 < a.x2)) ∧
        (a.y1 ≤ b.y2 ∧ b.y1 ≤ a.y2 ∧ ¬(a.y1 < b.y1 ∧ b.y2 < a.y2))) := by
  rw [intersects, decide_eq_true_eq]
  exact and_congr (intersects_axis_iff _ _ _ _ hax) (intersects_axis_iff _ _ _ _ hay)

/-- Witness for C3 (amended) at two concrete partially-overlapping boxes. -/
theorem c3_amended_witness :
    intersects ⟨0, 0, 10, 10⟩ ⟨5, 5, 15, 15⟩ = true ↔
      (((0 : ℚ) ≤ 15 ∧ (5 : ℚ) ≤ 10 ∧ ¬((0 : ℚ) < 5 ∧ (15 : ℚ) < 10)) ∧
        ((0 : ℚ) ≤ 15 ∧ (5 : ℚ) ≤ 10 ∧ ¬((0 : ℚ) < 5 ∧ (15 : ℚ) < 10))) :=
  c3_amended ⟨0, 0, 10, 10⟩ ⟨5, 5, 15, 15⟩ (by norm_num) (by norm_num) (by norm_num)
    (by norm_num)

/-! ### C4: delivering a BreadPiece to the serving block -/

/-- C4: the claim ("delivery is never an error, for every type an Item can
carry, including BreadPiece") is what `ServingBlock` plainly intends, but the
code's container is keyed `'Breadpiece'` while `BreadPiece._type` is
`'BreadPiece'`, so delivering a bread piece raises `KeyError` from
`self.container[ingredient.get_food_type()] += 1` — for every serving state. -/
theorem c4_breadpiece_delivery_keyerror :
    ∀ (g : Rng) (idx : Nat) (s : ServingS),
      serving_receive g idx s .BreadPiece = none := by
  intro g idx s
  have hk : ("BreadPiece" ∈ containerKeys) = False := by decide
  simp [serving_receive, dictIncr, get_food_type, hk]

/-- C4, complementary half: for every OTHER item type the container update
itself never fails (its tag is a container key). -/
theorem c4_other_types_increment :
    ∀ (t : IngType) (c : String → ℤ), t ≠ .BreadPiece →
      ∃ c2, dictIncr c (get_food_type t) = some c2 ∧
        c2 (get_food_type t) = c (get_food_type t) + 1 := by
  intro t c ht
  have hk : get_food_type t ∈ containerKeys := by cases t <;> first | decide | exact absurd rfl ht
  refine ⟨fun k2 => if k2 = get_food_type t then c (get_food_type t) + 1 else c k2, ?_, by simp⟩
  simp [dictIncr, hk]

/-! ### C2: the per-tick process-station update -/

/-- C2: the claim describes the intended behaviour (each processing station's
held item is replaced by the transformation result and its timer reset when the
timer expires), and the code's own docstrings say the same; but step 3 of
`update_game_frame` discards the result of `block._process(block._ingredient)`
and never reassigns `block._ingredient` (nor resets the timer, and a stray
`break` stops after the first station).  Consequently the held-item column of
the station list is invariant under arbitrarily many ticks: a Fish placed on a
cooking station is still a Fish after any number of ticks, never a FriedFish. -/
theorem c2_station_item_never_replaced :
    (∀ (bs : List PBlockS) (n : Nat),
      (update_process_blocks^[n] bs).map (fun b => b.ingredient) =
        bs.map (fun b => b.ingredient)) ∧
    (∀ n : Nat,
      ((update_process_blocks^[n]
            [⟨10, 10, true, some (mk_ingredient .Fish 0 0 10), false⟩]).map
          (fun b => b.ingredient.map (fun i => i.itype))) =
        [some IngType.Fish]) := by
  have hstep : ∀ bs : List PBlockS,
      (update_process_blocks bs).map (fun b => b.ingredient) =
        bs.map (fun b => b.ingredient) := by
    intro bs
    match bs with
    | [] => rfl
    | b :: rest =>
      simp only [update_process_blocks, update_timer]
      split_ifs <;> simp
  have hiter : ∀ (bs : List PBlockS) (n : Nat),
      (update_process_blocks^[n] bs).map (fun b => b.ingredient) =
        bs.map (fun b => b.ingredient) := by
    intro bs n
    induction n generalizing bs with
    | zero => rfl
    | succ n ih => rw [Function.iterate_succ_apply, ih, hstep]
  refine ⟨hiter, fun n => ?_⟩
  have h := hiter [⟨10, 10, true, some (mk_ingredient .Fish 0 0 10), false⟩] n
  have h2 := congrArg (fun l => l.map (fun o : Option Ingredient => o.map (fun i => i.itype))) h
  simpa [Function.comp] using h2

/-! ### C10: placing onto an already-occupied plain block -/

/-- C10: dropping a carried item onto a plain block that already holds one
keeps the block's held item unchanged (the block state is untouched — the
second item is not stored), while the second item is still repositioned onto
the block's cell with no owning player, and the player's slot is cleared. -/
theorem c10_occupied_block_receive (b : BlockS) (held carried : Ingredient)
    (hb : b.ingredient = some held) :
    (interact_case3 carried b).1 = none ∧
    (interact_case3 carried b).2.1 = b ∧
    (interact_case3 carried b).2.2.player = none ∧
    (interact_case3 carried b).2.2.box.x1 =
      b.box.x1 + (1 - ingredient_size_percent) / 2 * (b.box.x2 - b.box.x1) ∧
    (interact_case3 carried b).2.2.box.y1 =
      b.box.y1 + (1 - ingredient_size_percent) / 2 * (b.box.y2 - b.box.y1) ∧
    (interact_case3 carried b).2.2.itype = carried.itype := by
  have hs : b.ingredient.isSome = true := by rw [hb]; rfl
  refine ⟨rfl, ?_, ?_, ?_, ?_, ?_⟩ <;>
    simp [interact_case3, block_receive, hs, ing_drop, ing_moveto]

/-- Witness for C10 at a concrete occupied block. -/
theorem c10_occupied_block_receive_witness :
    (interact_case3 (mk_ingredient .Salad 0 0 30)
        ⟨⟨100, 100, 150, 150⟩, some (mk_ingredient .Toast 110 110 30)⟩).1 = none ∧
    (interact_case3 (mk_ingredient .Salad 0 0 30)
        ⟨⟨100, 100, 150, 150⟩, some (mk_ingredient .Toast 110 110 30)⟩).2.1 =
      ⟨⟨100, 100, 150, 150⟩, some (mk_ingredient .Toast 110 110 30)⟩ ∧
    (interact_case3 (mk_ingredient .Salad 0 0 30)
        ⟨⟨100, 100, 150, 150⟩, some (mk_ingredient .Toast 110 110 30)⟩).2.2.player = none ∧
    (interact_case3 (mk_ingredient .Salad 0 0 30)
        ⟨⟨100, 100, 150, 150⟩, some (mk_ingredient .Toast 110 110 30)⟩).2.2.box.x1 =
      100 + (1 - ingredient_size_percent) / 2 * (150 - 100) ∧
    (interact_case3 (mk_ingredient .Salad 0 0 30)
        ⟨⟨100, 100, 150, 150⟩, some (mk_ingredient .Toast 110 110 30)⟩).2.2.box.y1 =
      100 + (1 - ingredient_size_percent) / 2 * (150 - 100) ∧
    (interact_case3 (mk_ingredient .Salad 0 0 30)
        ⟨⟨100, 100, 150, 150⟩, some (mk_ingredient .Toast 110 110 30)⟩).2.2.itype =
      (mk_ingredient .Salad 0 0 30).itype :=
  c10_occupied_block_receive ⟨⟨100, 100, 150, 150⟩, some (mk_ingredient .Toast 110 110 30)⟩
    (mk_ingredient .Toast 110 110 30) (mk_ingredient .Salad 0 0 30) rfl

/-! ### C8: order fulfilment through the serving block -/

/-- C8 counterexample: from stock `{Sashimi: 1}` (front order: one Sashimi),
delivering one more Sashimi scores the order but leaves `stock[Sashimi] = 1`,
not `0` as the claim states: the delivery first raises the stock to 2 and the
fulfilment consumes exactly one unit. -/
theorem c8_counterexample :
    (serving_receive (fun _ => 0) 0
        ⟨fun k => if k = "Sashimi" then 1 else 0,
          [⟨"Sashimi", "Sashimi", "-", "-"⟩, ⟨"Salad", "Salad", "-", "-"⟩,
            ⟨"Toast", "Toast", "-", "-"⟩], 0⟩ IngType.Sashimi).map
      (fun r => (r.1.container "Sashimi", r.1.score, r.1.current_order, r.2)) =
      some (1, 1,
        [⟨"Salad", "Salad", "-", "-"⟩, ⟨"Toast", "Toast", "-", "-"⟩,
          ⟨"Sashimi", "Sashimi", "-", "-"⟩], 1) := by
  decide

/-- C8 (amended): from stock with exactly one Sashimi and a front order whose
only non-sentinel slot is one Sashimi, delivering one more Sashimi increments
the score by exactly 1, leaves `stock[Sashimi]` equal to 1 (the delivered unit
raised it to 2 and fulfilment consumed one), advances the queue's front and
appends one newly drawn order at the back. -/
theorem c8_amended (g : Rng) (idx : Nat) (c : String → ℤ) (o1 o2 : Order) (score : ℤ)
    (h1 : c "Sashimi" = 1) :
    (serving_receive g idx ⟨c, [⟨"Sashimi", "Sashimi", "-", "-"⟩, o1, o2], score⟩
        IngType.Sashimi).map
      (fun r => (r.1.container "Sashimi", r.1.score, r.1.current_order, r.2)) =
      some (1, score + 1, [o1, o2, generate_order g idx], idx + 1) := by
  have hks : "Sashimi" ∈ containerKeys := by decide
  have hne : ("Sashimi" : String) ≠ "-" := by decide
  simp [serving_receive, dictIncr, hks, check_order, slotTest, slotDecr, dictDecr,
    update_order, get_food_type, hne, h1]

/-- Witness for C8 (amended) at a concrete serving state. -/
theorem c8_amended_witness :
    (serving_receive (fun _ => 3) 5
        ⟨fun k => if k = "Sashimi" then 1 else 0,
          [⟨"Sashimi", "Sashimi", "-", "-"⟩, ⟨"Salad", "Salad", "-", "-"⟩,
            ⟨"Toast", "Toast", "-", "-"⟩], 7⟩ IngType.Sashimi).map
      (fun r => (r.1.container "Sashimi", r.1.score, r.1.current_order, r.2)) =
      some (1, 7 + 1, [⟨"Salad", "Salad", "-", "-"⟩, ⟨"Toast", "Toast", "-", "-"⟩,
        generate_order (fun _ => 3) 5], 5 + 1) :=
  c8_amended (fun _ => 3) 5 (fun k => if k = "Sashimi" then 1 else 0)
    ⟨"Salad", "Salad", "-", "-"⟩ ⟨"Toast", "Toast", "-", "-"⟩ 7 (by decide)

/-! ### C9: nearest-object selection -/

/-- The running `min` fold used to model Python's `min` of a list. -/
theorem foldl_min_le_init (l : List ℚ) (a : ℚ) : l.foldl min a ≤ a := by
  induction l generalizing a with
  | nil => exact le_refl a
  | cons b t ih => exact le_trans (ih (min a b)) (min_le_left a b)

/-- The fold result bounds every element of the list. -/
theorem foldl_min_le (l : List ℚ) (a x : ℚ) (hx : x ∈ a :: l) : l.foldl min a ≤ x := by
  induction l generalizing a with
  | nil =>
    simp at hx
    exact le_of_eq hx.symm
  | cons b t ih =>
    show List.foldl min (min a b) t ≤ x
    rcases List.mem_cons.1 hx with h | h
    · calc List.foldl min (min a b) t ≤ min a b := foldl_min_le_init _ _
        _ ≤ a := min_le_left a b
        _ = x := h.symm
    · rcases List.mem_cons.1 h with h2 | h2
      · calc List.foldl min (min a b) t ≤ min a b := foldl_min_le_init _ _
          _ ≤ b := min_le_right a b
          _ = x := h2.symm
      · exact ih (min a b) (List.mem_cons.2 (Or.inr h2))

/-- The fold result is an element of the list it folds over. -/
theorem foldl_min_mem (l : List ℚ) (a : ℚ) : l.foldl min a ∈ a :: l := by
  induction l generalizing a with
  | nil => simp
  | cons b t ih =>
    have h := ih (min a b)
    rcases List.mem_cons.1 h with h2 | h2
    · rcases min_choice a b with hm | hm
      · exact List.mem_cons.2 (Or.inl (h2.trans hm))
      · exact List.mem_cons.2 (Or.inr (List.mem_cons.2 (Or.inl (h2.trans hm))))
    · exact List.mem_cons.2 (Or.inr (List.mem_cons.2 (Or.inr h2)))

/-- All entries strictly before `l.indexOf m` differ from `m`
(`list.index` returns the FIRST index of the value). -/
theorem get_lt_indexOf_ne (l : List ℚ) (m : ℚ) (j : Nat) (hj : j < l.length)
    (h : j < l.indexOf m) : l.get ⟨j, hj⟩ ≠ m := by
  induction l generalizing j with
  | nil => simp at hj
  | cons a t ih =>
    by_cases ha : a = m
    · rw [List.indexOf_cons, ha] at h
      simp at h
    · match j with
      | 0 => simpa using ha
      | j + 1 =>
        rw [List.indexOf_cons] at h
        have hb : (a == m) = false := beq_false_of_ne ha
        rw [hb] at h
        simp only [cond_false] at h
        exact ih j (by simpa using hj) (by omega)

/-- The first index of a known minimum of a rational list: in range, hits the
minimum, and everything strictly before it is strictly larger. -/
theorem indexOf_min_spec (d : List ℚ) (m : ℚ) (hmem : m ∈ d) (hmin : ∀ x ∈ d, m ≤ x) :
    ∃ hi : d.indexOf m < d.length,
      d.get ⟨d.indexOf m, hi⟩ = m ∧
      ∀ (j : Nat) (hj : j < d.length), j < d.indexOf m → m < d.get ⟨j, hj⟩ := by
  refine ⟨List.indexOf_lt_length.2 hmem, List.indexOf_get _, ?_⟩
  intro j hj hji
  have hne := get_lt_indexOf_ne d m j hj hji
  exact lt_of_le_of_ne (hmin _ (List.get_mem _ _ _)) (fun hc => hne hc.symm)

/-- C9: `object_with_min_distance` on a non-empty candidate list returns the
candidate minimising the centroid distance to the reference (stated through
`Real.sqrt` of the exact squared distance, which is what the source's
`distance` computes), breaking ties in favour of the first-encountered
candidate; on the empty list it fails fast (Python `ValueError` from `min([])`,
modelled as `none`) rather than returning a sentinel. -/
theorem c9_nearest_selection (obj : Box) (l : List Box) :
    (l = [] → object_with_min_distance obj l = none) ∧
    (l ≠ [] → ∃ (i : Nat) (hi : i < l.length),
      object_with_min_distance obj l = some (l.get ⟨i, hi⟩) ∧
      (∀ (j : Nat) (hj : j < l.length),
        distance_sq obj (l.get ⟨i, hi⟩) ≤ distance_sq obj (l.get ⟨j, hj⟩)) ∧
      (∀ (j : Nat) (hj : j < l.length), j < i →
        distance_sq obj (l.get ⟨i, hi⟩) < distance_sq obj (l.get ⟨j, hj⟩)) ∧
      (∀ (j : Nat) (hj : j < l.length),
        Real.sqrt ((distance_sq obj (l.get ⟨i, hi⟩) : ℚ) : ℝ) ≤
          Real.sqrt ((distance_sq obj (l.get ⟨j, hj⟩) : ℚ) : ℝ))) := by
  constructor
  · intro h; rw [h]; rfl
  · intro hne
    match l with
    | [] => exact absurd rfl hne
    | o :: os =>
      have hmem : (os.map (fun b => distance_sq obj b)).foldl min (distance_sq obj o) ∈
          (o :: os).map (fun b => distance_sq obj b) := by
        rw [List.map_cons]
        exact foldl_min_mem _ _
      have hminle : ∀ x ∈ (o :: os).map (fun b => distance_sq obj b),
          (os.map (fun b => distance_sq obj b)).foldl min (distance_sq obj o) ≤ x := by
        intro x hx
        rw [List.map_cons] at hx
        exact foldl_min_le _ _ _ hx
      obtain ⟨hi, hget, hstrict⟩ := indexOf_min_spec _ _ hmem hminle
      have hlen : ((o :: os).map (fun b => distance_sq obj b)).length = (o :: os).length :=
        List.length_map _ _
      have hi2 : ((o :: os).map (fun b => distance_sq obj b)).indexOf
          ((os.map (fun b => distance_sq obj b)).foldl min (distance_sq obj o)) <
          (o :: os).length := hlen ▸ hi
      have hgetmap : ∀ (j : Nat) (hj : j < (o :: os).length),
          ((o :: os).map (fun b => distance_sq obj b)).get ⟨j, hlen.symm ▸ hj⟩ =
            distance_sq obj ((o :: os).get ⟨j, hj⟩) := by
        intro j hj
        simp only [List.get_eq_getElem, List.getElem_map]
      have hmin2 : ∀ (j : Nat) (hj : j < (o :: os).length),
          distance_sq obj ((o :: os).get ⟨((o :: os).map (fun b => distance_sq obj b)).indexOf
              ((os.map (fun b => distance_sq obj b)).foldl min (distance_sq obj o)), hi2⟩) ≤
            distance_sq obj ((o :: os).get ⟨j, hj⟩) := by
        intro j hj
        rw [← hgetmap j hj]
        have hg : ((o :: os).map (fun b => distance_sq obj b)).get
            ⟨((o :: os).map (fun b => distance_sq obj b)).indexOf
              ((os.map (fun b => distance_sq obj b)).foldl min (distance_sq obj o)), hi⟩ =
            distance_sq obj ((o :: os).get ⟨_, hi2⟩) := by
          simp only [List.get_eq_getElem, List.getElem_map]
        rw [← hg, hget]
        exact hminle _ (List.get_mem _ _ _)
      refine ⟨_, hi2, ?_, hmin2, ?_, ?_⟩
      · show some ((o :: os).getD (((o :: os).map (fun b => distance_sq obj b)).indexOf
            ((os.map (fun b => distance_sq obj b)).foldl min (distance_sq obj o))) o) = _
        rw [List.getD_eq_getElem?_getD, List.getElem?_eq_getElem hi2]
        rfl
      · intro j hj hji
        have hg : ((o :: os).map (fun b => distance_sq obj b)).get
            ⟨((o :: os).map (fun b => distance_sq obj b)).indexOf
              ((os.map (fun b => distance_sq obj b)).foldl min (distance_sq obj o)), hi⟩ =
            distance_sq obj ((o :: os).get ⟨_, hi2⟩) := by
          simp only [List.get_eq_getElem, List.getElem_map]
        have hs := hstrict j (hlen.symm ▸ hj) hji
        rw [hgetmap j hj] at hs
        rw [← hg, hget]
        exact hs
      · intro j hj
        exact Real.sqrt_le_sqrt (by exact_mod_cast hmin2 j hj)

/-- Witness for C9 on a concrete two-candidate list (the second is nearer). -/
theorem c9_nearest_selection_witness :
    ([⟨10, 10, 20, 20⟩, ⟨1, 1, 3, 3⟩] : List Box) ≠ [] ∧
    ∃ (i : Nat) (hi : i < ([⟨10, 10, 20, 20⟩, ⟨1, 1, 3, 3⟩] : List Box).length),
      object_with_min_distance ⟨0, 0, 2, 2⟩ [⟨10, 10, 20, 20⟩, ⟨1, 1, 3, 3⟩] =
        some (([⟨10, 10, 20, 20⟩, ⟨1, 1, 3, 3⟩] : List Box).get ⟨i, hi⟩) ∧
      (∀ (j : Nat) (hj : j < ([⟨10, 10, 20, 20⟩, ⟨1, 1, 3, 3⟩] : List Box).length),
        distance_sq ⟨0, 0, 2, 2⟩ (([⟨10, 10, 20, 20⟩, ⟨1, 1, 3, 3⟩] : List Box).get ⟨i, hi⟩) ≤
          distance_sq ⟨0, 0, 2, 2⟩ (([⟨10, 10, 20, 20⟩, ⟨1, 1, 3, 3⟩] : List Box).get ⟨j, hj⟩)) ∧
      (∀ (j : Nat) (hj : j < ([⟨10, 10, 20, 20⟩, ⟨1, 1, 3, 3⟩] : List Box).length), j < i →
        distance_sq ⟨0, 0, 2, 2⟩ (([⟨10, 10, 20, 20⟩, ⟨1, 1, 3, 3⟩] : List Box).get ⟨i, hi⟩) <
          distance_sq ⟨0, 0, 2, 2⟩ (([⟨10, 10, 20, 20⟩, ⟨1, 1, 3, 3⟩] : List Box).get ⟨j, hj⟩)) ∧
      (∀ (j : Nat) (hj : j < ([⟨10, 10, 20, 20⟩, ⟨1, 1, 3, 3⟩] : List Box).length),
        Real.sqrt ((distance_sq ⟨0, 0, 2, 2⟩
            (([⟨10, 10, 20, 20⟩, ⟨1, 1, 3, 3⟩] : List Box).get ⟨i, hi⟩) : ℚ) : ℝ) ≤
          Real.sqrt ((distance_sq ⟨0, 0, 2, 2⟩
            (([⟨10, 10, 20, 20⟩, ⟨1, 1, 3, 3⟩] : List Box).get ⟨j, hj⟩) : ℚ) : ℝ)) :=
  ⟨by decide, (c9_nearest_selection ⟨0, 0, 2, 2⟩ [⟨10, 10, 20, 20⟩, ⟨1, 1, 3, 3⟩]).2 (by decide)⟩

/-! ### C6: two-phase axis-separated movement -/

/-- Composition law for box shifts. -/
theorem shiftBox_shiftBox (bx : Box) (a b c d : ℚ) :
    shiftBox (shiftBox bx a b) c d = shiftBox bx (a + c) (b + d) := by
  cases bx
  simp only [shiftBox, Box.mk.injEq]
  refine ⟨by ring, by ring, by ring, by ring⟩

/-- Shifting a box by zero is the identity. -/
theorem shiftBox_zero (bx : Box) : shiftBox bx 0 0 = bx := by
  cases bx
  simp [shiftBox]

/-- Composition law for player shifts. -/
theorem shiftP_shiftP (p : PlayerS) (a b c d : ℚ) :
    shiftP (shiftP p a b) c d = shiftP p (a + c) (b + d) := by
  cases p with
  | mk box vx vy ing =>
    simp only [shiftP, Option.map_map, PlayerS.mk.injEq, shiftBox_shiftBox, true_and]
    congr 1
    funext x
    exact shiftBox_shiftBox _ _ _ _ _

/-- Shifting a player by zero is the identity. -/
theorem shiftP_zero (p : PlayerS) : shiftP p 0 0 = p := by
  cases p with
  | mk box vx vy ing =>
    cases ing <;> simp [shiftP, shiftBox_zero]

/-- Shifting a player there and back is the identity. -/
theorem shiftP_cancel (p : PlayerS) (dx dy : ℚ) : shiftP (shiftP p dx dy) (-dx) (-dy) = p := by
  rw [shiftP_shiftP]
  simp [shiftP_zero]

/-- A shift preserves the carried-item lock-step relation with the starting
state: the item's displacement always equals the player's. -/
theorem lockstep_shift (p q : PlayerS) (dx dy : ℚ)
    (h : ∀ i : Box, p.ing = some i →
      q.ing = some (shiftBox i (q.box.x1 - p.box.x1) (q.box.y1 - p.box.y1))) :
    ∀ i : Box, p.ing = some i →
      (shiftP q dx dy).ing = some (shiftBox i ((shiftP q dx dy).box.x1 - p.box.x1)
        ((shiftP q dx dy).box.y1 - p.box.y1)) := by
  intro i hi
  have hq := h i hi
  have e1 : (shiftP q dx dy).box.x1 - p.box.x1 = (q.box.x1 - p.box.x1) + dx := by
    simp only [shiftP, shiftBox]
    ring
  have e2 : (shiftP q dx dy).box.y1 - p.box.y1 = (q.box.y1 - p.box.y1) + dy := by
    simp only [shiftP, shiftBox]
    ring
  show (q.ing.map (fun b => shiftBox b dx dy)) = _
  rw [hq, Option.map_some', e1, e2, shiftBox_shiftBox]

/-- The lock-step relation holds reflexively. -/
theorem lockstep_refl (p : PlayerS) :
    ∀ i : Box, p.ing = some i →
      p.ing = some (shiftBox i (p.box.x1 - p.box.x1) (p.box.y1 - p.box.y1)) := by
  intro i hi
  rw [hi, sub_self, sub_self, shiftBox_zero]

/-- When the collision scan reports no collision and there is at least one
other player, the scanned box overlaps (in `intersects`' sense) neither the
chosen block nor any other player. -/
theorem collide_any_false (b block : Box) (os : List Box)
    (h : collide_any b block os = false) :
    (os ≠ [] → intersects b block = false) ∧ ∀ o ∈ os, intersects b o = false := by
  induction os with
  | nil => exact ⟨fun hc => absurd rfl hc, fun o ho => absurd ho (List.not_mem_nil o)⟩
  | cons o t ih =>
    rw [collide_any] at h
    by_cases hc : (intersects b block || intersects b o) = true
    · rw [if_pos hc] at h; exact absurd h (by simp)
    · rw [if_neg hc] at h
      have hc2 : (intersects b block || intersects b o) = false := by simpa using hc
      rcases Bool.or_eq_false_iff.1 hc2 with ⟨h1, h2⟩
      have := ih h
      exact ⟨fun _ => h1, fun x hx => by
        rcases List.mem_cons.1 hx with hx | hx
        · exact hx ▸ h2
        · exact this.2 x hx⟩

/-- C6 counterexample: with an empty other-players list (a one-player game, as
`create_game_screen`'s own docstring exercises) the collision loop body never
runs, so NOTHING is ever reverted: a player that starts clear of the chosen
station ends the tick with its bounding box genuinely overlapping it. -/
theorem c6_counterexample :
    specOverlaps (⟨⟨50, 0, 90, 40⟩, 0, 20, none⟩ : PlayerS).box ⟨50, 50, 100, 100⟩ = false ∧
    specOverlaps (player_move ⟨⟨50, 0, 90, 40⟩, 0, 20, none⟩ ⟨50, 50, 100, 100⟩ []).box
      ⟨50, 50, 100, 100⟩ = true := by
  refine ⟨by decide, ?_⟩
  norm_num [player_move, shiftP, shiftBox, collide_any, specOverlaps]

/-- C6 (amended): `Player.move` is two-phase and axis-separated exactly as
described, and a carried item moves in lock-step (its net displacement equals
the player's, reverts included); but the collision guarantee needs two caveats
the code forces: the scan only tests the ONE chosen station and only runs when
at least one other player exists, and "overlap" is `intersects`' one-sided
corner test.  Under those hypotheses — some other player exists and the player
starts the tick with no detected overlap against the chosen station and every
other player — it also ends the tick with none. -/
theorem c6_amended (p : PlayerS) (block : Box) (others : List Box)
    (hne : others ≠ [])
    (hb : intersects p.box block = false)
    (ho : ∀ o ∈ others, intersects p.box o = false) :
    intersects (player_move p block others).box block = false ∧
    (∀ o ∈ others, intersects (player_move p block others).box o = false) ∧
    (∀ i : Box, p.ing = some i →
      (player_move p block others).ing =
        some (shiftBox i ((player_move p block others).box.x1 - p.box.x1)
          ((player_move p block others).box.y1 - p.box.y1))) := by
  have key : ∀ (q : PlayerS) (dx dy rx ry : ℚ),
      shiftP (shiftP q dx dy) rx ry = q →
      intersects q.box block = false → (∀ o ∈ others, intersects q.box o = false) →
      intersects (if collide_any (shiftP q dx dy).box block others
          then shiftP (shiftP q dx dy) rx ry else shiftP q dx dy).box block = false ∧
      (∀ o ∈ others, intersects (if collide_any (shiftP q dx dy).box block others
          then shiftP (shiftP q dx dy) rx ry else shiftP q dx dy).box o = false) := by
    intro q dx dy rx ry hcancel hqb hqo
    by_cases hc : collide_any (shiftP q dx dy).box block others = true
    · rw [if_pos hc, hcancel]
      exact ⟨hqb, hqo⟩
    · rw [if_neg hc]
      have hfalse := collide_any_false _ _ _ (by simpa using hc)
      exact ⟨hfalse.1 hne, hfalse.2⟩
  have hvert : shiftP (shiftP p 0 p.vy) 0 (-p.vy) = p := by
    rw [shiftP_shiftP]
    simp [shiftP_zero]
  have step1 := key p 0 p.vy 0 (-p.vy) hvert hb ho
  have hhorz : ∀ q : PlayerS, shiftP (shiftP q p.vx 0) (-p.vx) 0 = q := by
    intro q
    rw [shiftP_shiftP]
    simp [shiftP_zero]
  have step2 := key
    (if collide_any (shiftP p 0 p.vy).box block others
      then shiftP (shiftP p 0 p.vy) 0 (-p.vy) else shiftP p 0 p.vy)
    p.vx 0 (-p.vx) 0 (hhorz _) step1.1 step1.2
  have hmove : player_move p block others =
      (if collide_any (shiftP (if collide_any (shiftP p 0 p.vy).box block others
            then shiftP (shiftP p 0 p.vy) 0 (-p.vy) else shiftP p 0 p.vy) p.vx 0).box
          block others
        then shiftP (shiftP (if collide_any (shiftP p 0 p.vy).box block others
            then shiftP (shiftP p 0 p.vy) 0 (-p.vy) else shiftP p 0 p.vy) p.vx 0) (-p.vx) 0
        else shiftP (if collide_any (shiftP p 0 p.vy).box block others
            then shiftP (shiftP p 0 p.vy) 0 (-p.vy) else shiftP p 0 p.vy) p.vx 0) := rfl
  have hing : ∀ i : Box, p.ing = some i →
      (player_move p block others).ing =
        some (shiftBox i ((player_move p block others).box.x1 - p.box.x1)
          ((player_move p block others).box.y1 - p.box.y1)) := by
    rw [hmove]
    split_ifs <;> (repeat apply lockstep_shift) <;> exact lockstep_refl p
  refine ⟨?_, ?_, hing⟩
  · rw [hmove]
    exact step2.1
  · rw [hmove]
    exact step2.2

/-- Witness for C6 (amended): one other player, clean start. -/
theorem c6_amended_witness :
    intersects (player_move ⟨⟨0, 0, 10, 10⟩, 1, 1, none⟩ ⟨50, 50, 60, 60⟩
      [⟨30, 30, 40, 40⟩]).box ⟨50, 50, 60, 60⟩ = false ∧
    (∀ o ∈ ([⟨30, 30, 40, 40⟩] : List Box),
      intersects (player_move ⟨⟨0, 0, 10, 10⟩, 1, 1, none⟩ ⟨50, 50, 60, 60⟩
        [⟨30, 30, 40, 40⟩]).box o = false) ∧
    (∀ i : Box, (⟨⟨0, 0, 10, 10⟩, 1, 1, none⟩ : PlayerS).ing = some i →
      (player_move ⟨⟨0, 0, 10, 10⟩, 1, 1, none⟩ ⟨50, 50, 60, 60⟩ [⟨30, 30, 40, 40⟩]).ing =
        some (shiftBox i
          ((player_move ⟨⟨0, 0, 10, 10⟩, 1, 1, none⟩ ⟨50, 50, 60, 60⟩
            [⟨30, 30, 40, 40⟩]).box.x1 - (0 : ℚ))
          ((player_move ⟨⟨0, 0, 10, 10⟩, 1, 1, none⟩ ⟨50, 50, 60, 60⟩
            [⟨30, 30, 40, 40⟩]).box.y1 - (0 : ℚ)))) :=
  c6_amended ⟨⟨0, 0, 10, 10⟩, 1, 1, none⟩ ⟨50, 50, 60, 60⟩ [⟨30, 30, 40, 40⟩]
    (by decide) (by decide) (by decide)

/-! ### Map generation: fidelity of the random-float comparison -/

/-- The integer comparison `randFloatLe` is exactly `random.random() <= p` on
the embedded dyadic draw. -/
theorem randFloatLe_iff (g : Rng) (i : Nat) (p : ℚ) :
    randFloatLe g i p = true ↔ randFloat g i ≤ p := by
  rw [randFloatLe, decide_eq_true_eq, randFloat]
  generalize g i % 2 ^ 53 = k
  have hden0 : (0 : ℚ) < ((p.den : ℕ) : ℚ) := by
    exact_mod_cast p.den_pos
  have h := Rat.num_div_den p
  have hnum : ((p.num : ℤ) : ℚ) = p * ((p.den : ℕ) : ℚ) :=
    ((eq_div_iff (ne_of_gt hden0)).1 h.symm).symm
  have key : ((((k : ℕ) : ℤ) * ((p.den : ℕ) : ℤ)) ≤ p.num * 2 ^ 53) ↔
      (((k : ℕ) : ℚ) ≤ p * 2 ^ 53) := by
    rw [show ((((k : ℕ) : ℤ) * ((p.den : ℕ) : ℤ)) ≤ p.num * 2 ^ 53) ↔
        (((((k : ℕ) : ℤ) * ((p.den : ℕ) : ℤ) : ℤ) : ℚ) ≤
          ((p.num * 2 ^ 53 : ℤ) : ℚ)) from Int.cast_le.symm]
    push_cast
    rw [hnum, mul_right_comm, mul_le_mul_right hden0]
    norm_num
  rw [key, div_le_iff₀ (by positivity : (0 : ℚ) < 2 ^ 53)]

/-- Against threshold 1 (the sub-7-stations regime) the float test always
passes: `random.random()` is strictly below 1. -/
theorem randFloatLe_one (g : Rng) (i : Nat) : randFloatLe g i 1 = true := by
  rw [randFloatLe, decide_eq_true_eq]
  have h : g i % 2 ^ 53 < 2 ^ 53 := Nat.mod_lt _ (by norm_num)
  simp only [Rat.den_ofNat, Nat.cast_one, mul_one, Rat.num_ofNat, one_mul]
  exact_mod_cast h.le

/-! ### Map generation: list-as-set lemmas -/

/-- Membership in a `set.add`. -/
theorem mem_setAdd (l : List Cell) (c x : Cell) : x ∈ setAdd l c ↔ x ∈ l ∨ x = c := by
  rw [setAdd]
  split
  · rename_i h
    constructor
    · exact Or.inl
    · rintro (hx | rfl)
      · exact hx
      · exact h
  · simp [List.mem_append]

/-- `set.add` keeps the list duplicate-free. -/
theorem setAdd_nodup (l : List Cell) (c : Cell) (h : l.Nodup) : (setAdd l c).Nodup := by
  rw [setAdd]
  split
  · exact h
  · rename_i hc
    simp [List.nodup_append, h, hc]

/-! ### Map generation: adjacency and reachability -/

/-- 4-adjacency is symmetric. -/
theorem adjacent_symm (a b : Cell) (h : adjacent a b) : adjacent b a := by
  simp only [adjacent, DIRECTIONS, List.mem_cons, List.not_mem_nil, or_false,
    Prod.mk.injEq] at h ⊢
  omega

/-- A reachability step is symmetric. -/
theorem cstep_symm (l : List Cell) (a b : Cell) (h : cstep l a b) : cstep l b a :=
  ⟨h.2.1, h.1, adjacent_symm a b h.2.2⟩

/-- Free-floor reachability is symmetric. -/
theorem reach_symm (l : List Cell) (a b : Cell) (h : reach l a b) : reach l b a :=
  Relation.ReflTransGen.symmetric (fun _ _ hs => cstep_symm l _ _ hs) h

/-- Reachability only depends on the membership predicate of the floor list. -/
theorem reach_congr (l1 l2 : List Cell) (hmem : ∀ x : Cell, x ∈ l1 ↔ x ∈ l2)
    (a b : Cell) (h : reach l1 a b) : reach l2 a b :=
  Relation.ReflTransGen.mono
    (fun x y hs => ⟨(hmem x).1 hs.1, (hmem y).1 hs.2.1, hs.2.2⟩) h

/-- Connectivity only depends on the membership predicate of the floor list. -/
theorem connectedL_congr (l1 l2 : List Cell) (hmem : ∀ x : Cell, x ∈ l1 ↔ x ∈ l2)
    (h : connectedL l1) : connectedL l2 :=
  fun a ha b hb =>
    reach_congr l1 l2 hmem a b (h a ((hmem a).2 ha) b ((hmem b).2 hb))

/-! ### Map generation: soundness of the BFS accessibility sweep -/

/-- `expand_dirs` never adds to its space pool. -/
theorem expand_dirs_sub (c : Cell) (ds : List (ℤ × ℤ)) (spaces : List Cell) :
    ∀ x ∈ (expand_dirs c ds spaces).2, x ∈ spaces := by
  induction ds generalizing spaces with
  | nil => exact fun x hx => hx
  | cons d dt ih =>
    intro x hx
    rw [expand_dirs] at hx
    split at hx
    · exact List.mem_of_mem_erase (ih (spaces.erase _) x hx)
    · exact ih spaces x hx

/-- Everything `expand_dirs` collects was a space and is a neighbour of `c`. -/
theorem expand_dirs_new (c : Cell) (ds : List (ℤ × ℤ)) (spaces : List Cell) :
    ∀ n ∈ (expand_dirs c ds spaces).1,
      n ∈ spaces ∧ ∃ d ∈ ds, n = (c.1 + d.1, c.2 + d.2) := by
  induction ds generalizing spaces with
  | nil => intro n hn; exact absurd hn (List.not_mem_nil n)
  | cons d dt ih =>
    intro n hn
    rw [expand_dirs] at hn
    split at hn
    · rename_i hd
      rcases List.mem_cons.1 hn with rfl | hn2
      · exact ⟨hd, d, List.mem_cons_self d dt, rfl⟩
      · obtain ⟨hs, d2, hd2, he⟩ := ih (spaces.erase _) n hn2
        exact ⟨List.mem_of_mem_erase hs, d2, List.mem_cons.2 (Or.inr hd2), he⟩
    · obtain ⟨hs, d2, hd2, he⟩ := ih spaces n hn
      exact ⟨hs, d2, List.mem_cons.2 (Or.inr hd2), he⟩

/-- A space survives `expand_dirs` or is collected by it. -/
theorem expand_dirs_cover (c : Cell) (ds : List (ℤ × ℤ)) (spaces : List Cell) :
    ∀ x ∈ spaces, x ∈ (expand_dirs c ds spaces).2 ∨ x ∈ (expand_dirs c ds spaces).1 := by
  induction ds generalizing spaces with
  | nil => exact fun x hx => Or.inl hx
  | cons d dt ih =>
    intro x hx
    rw [expand_dirs]
    split
    · rename_i hd
      by_cases hxn : x = (c.1 + d.1, c.2 + d.2)
      · exact Or.inr (List.mem_cons.2 (Or.inl hxn))
      · rcases ih (spaces.erase _) x ((List.mem_erase_of_ne hxn).2 hx) with h | h
        · exact Or.inl h
        · exact Or.inr (List.mem_cons.2 (Or.inr h))
    · exact ih spaces x hx

/-- `bfs_expand` never adds to its space pool. -/
theorem bfs_expand_sub (curr spaces : List Cell) :
    ∀ x ∈ (bfs_expand curr spaces).2, x ∈ spaces := by
  induction curr generalizing spaces with
  | nil => exact fun x hx => hx
  | cons c cs ih =>
    intro x hx
    rw [bfs_expand] at hx
    exact expand_dirs_sub c DIRECTIONS spaces x (ih _ x hx)

/-- Everything the next frontier collects was a space adjacent to the current
frontier. -/
theorem bfs_expand_new (curr spaces : List Cell) :
    ∀ n ∈ (bfs_expand curr spaces).1,
      n ∈ spaces ∧ ∃ c ∈ curr, adjacent c n := by
  induction curr generalizing spaces with
  | nil => intro n hn; exact absurd hn (List.not_mem_nil n)
  | cons c cs ih =>
    intro n hn
    rw [bfs_expand] at hn
    rcases List.mem_append.1 hn with hn1 | hn2
    · obtain ⟨hs, d, hd, he⟩ := expand_dirs_new c DIRECTIONS spaces n hn1
      refine ⟨hs, c, List.mem_cons_self c cs, ?_⟩
      subst he
      simp only [adjacent]
      have : (c.1 + d.1 - c.1, c.2 + d.2 - c.2) = d := by
        obtain ⟨d1, d2⟩ := d
        simp only [Prod.mk.injEq]
        constructor <;> ring
      rw [this]
      exact hd
    · obtain ⟨hs, c2, hc2, ha⟩ := ih _ n hn2
      exact ⟨expand_dirs_sub c DIRECTIONS spaces n hs, c2, List.mem_cons.2 (Or.inr hc2), ha⟩

/-- A space survives `bfs_expand` or joins the next frontier. -/
theorem bfs_expand_cover (curr spaces : List Cell) :
    ∀ x ∈ spaces, x ∈ (bfs_expand curr spaces).2 ∨ x ∈ (bfs_expand curr spaces).1 := by
  induction curr generalizing spaces with
  | nil => exact fun x hx => Or.inl hx
  | cons c cs ih =>
    intro x hx
    rw [bfs_expand]
    rcases expand_dirs_cover c DIRECTIONS spaces x hx with h | h
    · rcases ih _ x h with h2 | h2
      · exact Or.inl h2
      · exact Or.inr (List.mem_append.2 (Or.inr h2))
    · exact Or.inr (List.mem_append.2 (Or.inl h))

/-- BFS soundness: any space no longer present when the loop stops was reached
from the start cell along spaces of the ambient free set `S`. -/
theorem bfs_loop_reach (S : List Cell) (s0 : Cell) :
    ∀ (fuel : Nat) (curr spaces : List Cell),
      (∀ c ∈ curr, c ∈ S ∧ reach S s0 c) → (∀ x ∈ spaces, x ∈ S) →
      ∀ x ∈ spaces, x ∉ bfs_loop fuel curr spaces → reach S s0 x := by
  intro fuel
  induction fuel with
  | zero => exact fun curr spaces _ _ x hx hnx => absurd hx hnx
  | succ n ih =>
    intro curr spaces hcurr hsp x hx hnx
    match curr with
    | [] => exact absurd hx hnx
    | c :: cs =>
      rw [bfs_loop] at hnx
      split at hnx
      · exact absurd hx hnx
      · rcases bfs_expand_cover (c :: cs) spaces x hx with h | h
        · refine ih _ _ ?_ ?_ x h hnx
          · intro n2 hn2
            obtain ⟨hs, c2, hc2, ha⟩ := bfs_expand_new (c :: cs) spaces n2 hn2
            obtain ⟨hc2S, rc2⟩ := hcurr c2 hc2
            exact ⟨hsp n2 hs, rc2.tail ⟨hc2S, hsp n2 hs, ha⟩⟩
          · exact fun y hy => hsp y (bfs_expand_sub _ _ y hy)
        · obtain ⟨hs, c2, hc2, ha⟩ := bfs_expand_new (c :: cs) spaces x h
          obtain ⟨hc2S, rc2⟩ := hcurr c2 hc2
          exact rc2.tail ⟨hc2S, hsp x hs, ha⟩

/-- Soundness of `is_map_accessible`: when the sweep returns true the space set
is connected under 4-adjacency. -/
theorem is_map_accessible_connected (spaces : List Cell)
    (h : is_map_accessible spaces = true) : connectedL spaces := by
  match spaces with
  | [] => exact fun a ha => absurd ha (List.not_mem_nil a)
  | s0 :: rest =>
    rw [is_map_accessible, decide_eq_true_eq] at h
    have hs0 : s0 ∈ s0 :: rest := List.mem_cons_self s0 rest
    have hall : ∀ x ∈ s0 :: rest, reach (s0 :: rest) s0 x := by
      intro x hx
      rcases List.mem_cons.1 hx with rfl | hx2
      · exact Relation.ReflTransGen.refl
      · refine bfs_loop_reach (s0 :: rest) s0 (rest.length + 1) [s0] rest ?_ ?_ x hx2 ?_
        · intro c hc
          rcases List.mem_cons.1 hc with rfl | hc2
          · exact ⟨hs0, Relation.ReflTransGen.refl⟩
          · exact absurd hc2 (List.not_mem_nil c)
        · exact fun y hy => List.mem_cons.2 (Or.inr hy)
        · rw [h]
          exact List.not_mem_nil x
    intro a ha b hb
    exact Relation.ReflTransGen.trans (reach_symm _ _ _ (hall a ha)) (hall b hb)

/-! ### Map generation: the free-cell comprehension -/

/-- Membership in the gate's set comprehension. -/
theorem mem_free_spaces (gl gw : Nat) (ph bl : List Cell) (cand x : Cell) :
    x ∈ free_spaces gl gw ph bl cand ↔
      (0 ≤ x.1 ∧ x.1 < (gw : ℤ) ∧ 0 ≤ x.2 ∧ x.2 < (gl : ℤ) ∧
        x ∉ ph ∧ x ∉ bl ∧ x ≠ cand) := by
  obtain ⟨x1, x2⟩ := x
  dsimp only
  rw [free_spaces, List.mem_flatMap]
  constructor
  · rintro ⟨r, hr, hx⟩
    rw [List.mem_range] at hr
    rw [List.mem_filterMap] at hx
    obtain ⟨c, hc, hite⟩ := hx
    rw [List.mem_range] at hc
    by_cases hcond : (((r : ℤ), (c : ℤ)) : Cell) ∉ ph ∧ (((r : ℤ), (c : ℤ)) : Cell) ∉ bl ∧
        (((r : ℤ), (c : ℤ)) : Cell) ≠ cand
    · rw [if_pos hcond] at hite
      have hx2 : (((r : ℤ), (c : ℤ)) : Cell) = (x1, x2) := Option.some.inj hite
      injection hx2 with e1 e2
      subst e1
      subst e2
      exact ⟨Int.natCast_nonneg r, by exact_mod_cast hr, Int.natCast_nonneg c,
        by exact_mod_cast hc, hcond.1, hcond.2.1, hcond.2.2⟩
    · rw [if_neg hcond] at hite
      exact absurd hite (by simp)
  · rintro ⟨h0, h1, h2, h3, h4, h5, h6⟩
    have hx : (((x1.toNat : ℕ) : ℤ), ((x2.toNat : ℕ) : ℤ)) = ((x1, x2) : Cell) := by
      rw [Int.toNat_of_nonneg h0, Int.toNat_of_nonneg h2]
    refine ⟨x1.toNat, ?_, ?_⟩
    · rw [List.mem_range]
      omega
    · rw [List.mem_filterMap]
      refine ⟨x2.toNat, ?_, ?_⟩
      · rw [List.mem_range]
        omega
      · show (if (((x1.toNat : ℕ) : ℤ), ((x2.toNat : ℕ) : ℤ)) ∉ ph ∧
            ((((x1.toNat : ℕ) : ℤ), ((x2.toNat : ℕ) : ℤ)) : Cell) ∉ bl ∧
            ((((x1.toNat : ℕ) : ℤ), ((x2.toNat : ℕ) : ℤ)) : Cell) ≠ cand then
            some ((((x1.toNat : ℕ) : ℤ), ((x2.toNat : ℕ) : ℤ)) : Cell) else none) =
          some ((x1, x2) : Cell)
        rw [hx, if_pos ⟨h4, h5, h6⟩]

/-- Membership in the free cells of a layout. -/
theorem mem_map_free (gl gw : Nat) (ph bl : List Cell) (x : Cell) :
    x ∈ map_free gl gw ph bl ↔
      (0 ≤ x.1 ∧ x.1 < (gw : ℤ) ∧ 0 ≤ x.2 ∧ x.2 < (gl : ℤ) ∧ x ∉ ph ∧ x ∉ bl) := by
  rw [map_free, mem_free_spaces]
  constructor
  · rintro ⟨h0, h1, h2, h3, h4, h5, _⟩
    exact ⟨h0, h1, h2, h3, h4, h5⟩
  · rintro ⟨h0, h1, h2, h3, h4, h5⟩
    refine ⟨h0, h1, h2, h3, h4, h5, ?_⟩
    intro hc
    rw [hc] at h0
    exact absurd h0 (by norm_num)

/-! ### Map generation: one placement step -/

/-- `bad_candidate = false` unpacked. -/
theorem bad_candidate_false (gl gw : Nat) (ph bl : List Cell) (cand : Cell)
    (h : bad_candidate gl gw ph bl cand = false) :
    cand ∉ bl ∧ cand ∉ ph ∧ is_map_accessible (free_spaces gl gw ph bl cand) = true := by
  rw [bad_candidate] at h
  rcases Bool.or_eq_false_iff.1 h with ⟨h12, h3⟩
  rcases Bool.or_eq_false_iff.1 h12 with ⟨h1, h2⟩
  exact ⟨of_decide_eq_false h1, of_decide_eq_false h2, by simpa using h3⟩

/-- `classify_place` occupies exactly one more cell: the candidate. -/
theorem classify_union (gl gw : Nat) (ph bl : List Cell) (cand : Cell) :
    ∀ x : Cell,
      (x ∈ (classify_place gl gw ph bl cand).1 ∨ x ∈ (classify_place gl gw ph bl cand).2) ↔
        (x ∈ ph ∨ x ∈ bl ∨ x = cand) := by
  intro x
  rw [classify_place]
  split <;> simp [mem_setAdd] <;> tauto

/-- The downgrade sweep only moves cells between the two sets. -/
theorem downgrade_union (gl gw : Nat) (cand : Cell) (ds : List (ℤ × ℤ)) :
    ∀ (ph bl : List Cell) (x : Cell),
      (x ∈ (downgrade_dirs gl gw cand ds ph bl).1 ∨
        x ∈ (downgrade_dirs gl gw cand ds ph bl).2) ↔ (x ∈ ph ∨ x ∈ bl) := by
  induction ds with
  | nil => exact fun ph bl x => Iff.rfl
  | cons d dt ih =>
    intro ph bl x
    rw [downgrade_dirs]
    split
    · rename_i hmove
      rw [ih]
      rw [mem_setAdd]
      constructor
      · rintro ((hx | rfl) | hx)
        · exact Or.inl hx
        · exact Or.inr hmove.1
        · exact Or.inr (List.mem_of_mem_erase hx)
      · rintro (hx | hx)
        · exact Or.inl (Or.inl hx)
        · by_cases hxn : x = (cand.1 + d.1, cand.2 + d.2)
          · exact Or.inl (Or.inr hxn)
          · exact Or.inr ((List.mem_erase_of_ne hxn).2 hx)
    · exact ih ph bl x

/-- The downgrade sweep keeps the block list duplicate-free. -/
theorem downgrade_nodup (gl gw : Nat) (cand : Cell) (ds : List (ℤ × ℤ)) :
    ∀ (ph bl : List Cell), bl.Nodup → (downgrade_dirs gl gw cand ds ph bl).2.Nodup := by
  induction ds with
  | nil => exact fun ph bl h => h
  | cons d dt ih =>
    intro ph bl h
    rw [downgrade_dirs]
    split
    · exact ih _ _ (h.erase _)
    · exact ih _ _ h

/-- `classify_place` keeps the block list duplicate-free. -/
theorem classify_nodup (gl gw : Nat) (ph bl : List Cell) (cand : Cell)
    (h : bl.Nodup) : (classify_place gl gw ph bl cand).2.Nodup := by
  rw [classify_place]
  split
  · exact setAdd_nodup bl cand h
  · exact h

/-- The candidate retry loop either exhausts its attempts (`attempts = 10`) or
stops on a good candidate; attempts never exceed 10. -/
theorem pick_loop_aux_spec (g : Rng) (gl gw : Nat) (ph bl : List Cell) :
    ∀ (n : Nat) (cand : Cell) (attempts idx : Nat), attempts ≤ 10 → 10 - attempts ≤ n →
      ((pick_loop_aux g gl gw ph bl n cand attempts idx).2.1 = 10 ∨
        bad_candidate gl gw ph bl (pick_loop_aux g gl gw ph bl n cand attempts idx).1
          = false) ∧
      (pick_loop_aux g gl gw ph bl n cand attempts idx).2.1 ≤ 10 := by
  intro n
  induction n with
  | zero =>
    intro cand attempts idx h10 hn
    have : attempts = 10 := by omega
    subst this
    exact ⟨Or.inl rfl, le_refl 10⟩
  | succ n ih =>
    intro cand attempts idx h10 hn
    rw [pick_loop_aux]
    split
    · rename_i hcond
      exact ih _ (attempts + 1) (idx + 1) (by omega) (by omega)
    · rename_i hcond
      rcases Nat.lt_or_ge attempts 10 with hlt | hge
      · refine ⟨Or.inr ?_, h10⟩
        by_cases hbad : bad_candidate gl gw ph bl cand = true
        · exact absurd ⟨hlt, hbad⟩ hcond
        · exact Bool.not_eq_true _ ▸ hbad
      · exact ⟨Or.inl (show attempts = 10 by omega), h10⟩

/-- Same statement for the wrapper. -/
theorem pick_loop_spec (g : Rng) (gl gw : Nat) (ph bl : List Cell)
    (cand : Cell) (attempts idx : Nat) (h10 : attempts ≤ 10) :
    ((pick_loop g gl gw ph bl cand attempts idx).2.1 = 10 ∨
      bad_candidate gl gw ph bl (pick_loop g gl gw ph bl cand attempts idx).1 = false) ∧
    (pick_loop g gl gw ph bl cand attempts idx).2.1 ≤ 10 :=
  pick_loop_aux_spec g gl gw ph bl (10 - attempts) cand attempts idx h10 (le_refl _)

/-! ### Map generation: the initial border layout -/

/-- Membership after folding `set.add` of two cells per index. -/
theorem mem_foldl_setAdd2 (g1 g2 : ℕ → Cell) :
    ∀ (l : List ℕ) (init : List Cell) (x : Cell),
      x ∈ l.foldl (fun bl r => setAdd (setAdd bl (g1 r)) (g2 r)) init ↔
        x ∈ init ∨ ∃ r ∈ l, x = g1 r ∨ x = g2 r := by
  intro l
  induction l with
  | nil => simp
  | cons a t ih =>
    intro init x
    rw [List.foldl_cons, ih, mem_setAdd, mem_setAdd]
    simp only [List.mem_cons]
    constructor
    · rintro (((hx | rfl) | rfl) | ⟨r, hr, hfr⟩)
      · exact Or.inl hx
      · exact Or.inr ⟨a, Or.inl rfl, Or.inl rfl⟩
      · exact Or.inr ⟨a, Or.inl rfl, Or.inr rfl⟩
      · exact Or.inr ⟨r, Or.inr hr, hfr⟩
    · rintro (hx | ⟨r, (rfl | hr), hfr⟩)
      · exact Or.inl (Or.inl (Or.inl hx))
      · rcases hfr with rfl | rfl
        · exact Or.inl (Or.inl (Or.inr rfl))
        · exact Or.inl (Or.inr rfl)
      · exact Or.inr ⟨r, hr, hfr⟩

/-- Folding `set.add` keeps the list duplicate-free. -/
theorem foldl_setAdd2_nodup (g1 g2 : ℕ → Cell) :
    ∀ (l : List ℕ) (init : List Cell), init.Nodup →
      (l.foldl (fun bl r => setAdd (setAdd bl (g1 r)) (g2 r)) init).Nodup := by
  intro l
  induction l with
  | nil => exact fun init h => h
  | cons a t ih => exact fun init h => ih _ (setAdd_nodup _ _ (setAdd_nodup _ _ h))

/-- The four corner placeholders. -/
theorem mem_init_placeholders (gl gw : Nat) (x : Cell) :
    x ∈ init_placeholders gl gw ↔
      x = ((0 : ℤ), (0 : ℤ)) ∨ x = (0, (gl : ℤ) - 1) ∨ x = ((gw : ℤ) - 1, 0) ∨
        x = ((gw : ℤ) - 1, (gl : ℤ) - 1) := by
  rw [init_placeholders]
  simp only [List.foldl_cons, List.foldl_nil, mem_setAdd, List.not_mem_nil, false_or]
  tauto

/-- The border blocks, in arithmetic form. -/
theorem mem_init_blocks (gl gw : Nat) (x : Cell) :
    x ∈ init_blocks gl gw ↔
      ((∃ r : ℕ, r < gw - 2 ∧ (x = (((r : ℕ) : ℤ) + 1, (0 : ℤ)) ∨
          x = (((r : ℕ) : ℤ) + 1, (gl : ℤ) - 1))) ∨
        (∃ c : ℕ, c < gl - 2 ∧ (x = ((0 : ℤ), ((c : ℕ) : ℤ) + 1) ∨
          x = ((gw : ℤ) - 1, ((c : ℕ) : ℤ) + 1)))) := by
  rw [init_blocks, mem_foldl_setAdd2, mem_foldl_setAdd2]
  simp only [List.not_mem_nil, false_or, List.mem_range]

/-- The border blocks are duplicate-free. -/
theorem init_blocks_nodup (gl gw : Nat) : (init_blocks gl gw).Nodup := by
  rw [init_blocks]
  exact foldl_setAdd2_nodup _ _ _ _ (foldl_setAdd2_nodup _ _ _ _ List.nodup_nil)

/-- The free cells of the initial border layout are exactly the interior
rectangle. -/
theorem mem_map_free_init (gl gw : Nat) (x : Cell) :
    x ∈ map_free gl gw (init_placeholders gl gw) (init_blocks gl gw) ↔
      (1 ≤ x.1 ∧ x.1 ≤ (gw : ℤ) - 2 ∧ 1 ≤ x.2 ∧ x.2 ≤ (gl : ℤ) - 2) := by
  obtain ⟨x1, x2⟩ := x
  rw [mem_map_free, mem_init_placeholders, mem_init_blocks]
  dsimp only
  constructor
  · rintro ⟨h0, h1, h2, h3, hph, hbl⟩
    by_contra hcon
    have hcase : x1 = 0 ∨ x1 = (gw : ℤ) - 1 ∨ x2 = 0 ∨ x2 = (gl : ℤ) - 1 := by omega
    have hx2range : x2 = 0 ∨ x2 = (gl : ℤ) - 1 ∨ (1 ≤ x2 ∧ x2 ≤ (gl : ℤ) - 2) := by omega
    have hx1range : x1 = 0 ∨ x1 = (gw : ℤ) - 1 ∨ (1 ≤ x1 ∧ x1 ≤ (gw : ℤ) - 2) := by omega
    rcases hcase with rfl | h1e | rfl | h2e
    · rcases hx2range with rfl | rfl | hmid
      · exact hph (Or.inl rfl)
      · exact hph (Or.inr (Or.inl rfl))
      · refine hbl (Or.inr ⟨(x2 - 1).toNat, by omega, Or.inl ?_⟩)
        rw [Prod.ext_iff]
        constructor
        · rfl
        · show x2 = ((x2 - 1).toNat : ℤ) + 1
          omega
    · rcases hx2range with rfl | rfl | hmid
      · exact hph (Or.inr (Or.inr (Or.inl (by rw [h1e]))))
      · exact hph (Or.inr (Or.inr (Or.inr (by rw [h1e]))))
      · refine hbl (Or.inr ⟨(x2 - 1).toNat, by omega, Or.inr ?_⟩)
        rw [Prod.ext_iff]
        constructor
        · exact h1e
        · show x2 = ((x2 - 1).toNat : ℤ) + 1
          omega
    · rcases hx1range with rfl | rfl | hmid
      · exact hph (Or.inl rfl)
      · exact hph (Or.inr (Or.inr (Or.inl rfl)))
      · refine hbl (Or.inl ⟨(x1 - 1).toNat, by omega, Or.inl ?_⟩)
        rw [Prod.ext_iff]
        constructor
        · show x1 = ((x1 - 1).toNat : ℤ) + 1
          omega
        · rfl
    · rcases hx1range with rfl | rfl | hmid
      · exact hph (Or.inr (Or.inl (by rw [h2e])))
      · exact hph (Or.inr (Or.inr (Or.inr (by rw [h2e]))))
      · refine hbl (Or.inl ⟨(x1 - 1).toNat, by omega, Or.inr ?_⟩)
        rw [Prod.ext_iff]
        constructor
        · show x1 = ((x1 - 1).toNat : ℤ) + 1
          omega
        · exact h2e
  · rintro ⟨k1, k2, k3, k4⟩
    refine ⟨by omega, by omega, by omega, by omega, ?_, ?_⟩
    · rintro (he | he | he | he) <;>
        (rw [Prod.ext_iff] at he; dsimp only at he; omega)
    · rintro (⟨r, hr, he | he⟩ | ⟨c, hc, he | he⟩) <;>
        (rw [Prod.ext_iff] at he; dsimp only at he; omega)

/-! ### Map generation: connectivity of a full rectangle -/

/-- Horizontal rightward walk inside a rectangle floor. -/
theorem reach_right (l : List Cell) (r1 r2 c1 c2 : ℤ)
    (hmem : ∀ x : Cell, x ∈ l ↔ (r1 ≤ x.1 ∧ x.1 ≤ r2 ∧ c1 ≤ x.2 ∧ x.2 ≤ c2)) (r c : ℤ)
    (hr : r1 ≤ r ∧ r ≤ r2) (hc : c1 ≤ c) :
    ∀ k : ℕ, c + (k : ℤ) ≤ c2 → reach l (r, c) (r, c + (k : ℤ)) := by
  intro k
  induction k with
  | zero =>
    intro _
    simpa using Relation.ReflTransGen.refl
  | succ n ih =>
    intro hk
    have hstep : cstep l (r, c + (n : ℤ)) (r, c + ((n + 1 : ℕ) : ℤ)) := by
      refine ⟨(hmem _).2 ⟨hr.1, hr.2, by omega, by push_cast at hk ⊢; omega⟩,
        (hmem _).2 ⟨hr.1, hr.2, by push_cast at hk ⊢; omega, by push_cast at hk ⊢; omega⟩, ?_⟩
      simp only [adjacent, DIRECTIONS, List.mem_cons, List.not_mem_nil, or_false,
        Prod.mk.injEq]
      push_cast
      omega
    exact Relation.ReflTransGen.tail (ih (by push_cast at hk ⊢; omega)) hstep

/-- Vertical downward walk inside a rectangle floor. -/
theorem reach_down (l : List Cell) (r1 r2 c1 c2 : ℤ)
    (hmem : ∀ x : Cell, x ∈ l ↔ (r1 ≤ x.1 ∧ x.1 ≤ r2 ∧ c1 ≤ x.2 ∧ x.2 ≤ c2)) (r c : ℤ)
    (hc : c1 ≤ c ∧ c ≤ c2) (hr : r1 ≤ r) :
    ∀ k : ℕ, r + (k : ℤ) ≤ r2 → reach l (r, c) (r + (k : ℤ), c) := by
  intro k
  induction k with
  | zero =>
    intro _
    simpa using Relation.ReflTransGen.refl
  | succ n ih =>
    intro hk
    have hstep : cstep l (r + (n : ℤ), c) (r + ((n + 1 : ℕ) : ℤ), c) := by
      refine ⟨(hmem _).2 ⟨by omega, by push_cast at hk ⊢; omega, hc.1, hc.2⟩,
        (hmem _).2 ⟨by push_cast at hk ⊢; omega, by push_cast at hk ⊢; omega, hc.1, hc.2⟩, ?_⟩
      simp only [adjacent, DIRECTIONS, List.mem_cons, List.not_mem_nil, or_false,
        Prod.mk.injEq]
      push_cast
      omega
    exact Relation.ReflTransGen.tail (ih (by push_cast at hk ⊢; omega)) hstep

/-- Horizontal walk between any two columns of a row inside the rectangle. -/
theorem reach_horiz (l : List Cell) (r1 r2 c1 c2 : ℤ)
    (hmem : ∀ x : Cell, x ∈ l ↔ (r1 ≤ x.1 ∧ x.1 ≤ r2 ∧ c1 ≤ x.2 ∧ x.2 ≤ c2)) (r c c' : ℤ)
    (hr : r1 ≤ r ∧ r ≤ r2) (hc : c1 ≤ c ∧ c ≤ c2) (hc' : c1 ≤ c' ∧ c' ≤ c2) :
    reach l (r, c) (r, c') := by
  rcases le_total c c' with h | h
  · have he : c' = c + ((c' - c).toNat : ℤ) := by omega
    rw [he]
    exact reach_right l r1 r2 c1 c2 hmem r c hr hc.1 _ (by omega)
  · have he : c = c' + ((c - c').toNat : ℤ) := by omega
    refine reach_symm _ _ _ ?_
    rw [he]
    exact reach_right l r1 r2 c1 c2 hmem r c' hr hc'.1 _ (by omega)

/-- Vertical walk between any two rows of a column inside the rectangle. -/
theorem reach_vert (l : List Cell) (r1 r2 c1 c2 : ℤ)
    (hmem : ∀ x : Cell, x ∈ l ↔ (r1 ≤ x.1 ∧ x.1 ≤ r2 ∧ c1 ≤ x.2 ∧ x.2 ≤ c2)) (r r' c : ℤ)
    (hc : c1 ≤ c ∧ c ≤ c2) (hr : r1 ≤ r ∧ r ≤ r2) (hr' : r1 ≤ r' ∧ r' ≤ r2) :
    reach l (r, c) (r', c) := by
  rcases le_total r r' with h | h
  · have he : r' = r + ((r' - r).toNat : ℤ) := by omega
    rw [he]
    exact reach_down l r1 r2 c1 c2 hmem r c hc hr.1 _ (by omega)
  · have he : r = r' + ((r - r').toNat : ℤ) := by omega
    refine reach_symm _ _ _ ?_
    rw [he]
    exact reach_down l r1 r2 c1 c2 hmem r' c hc hr'.1 _ (by omega)

/-- A floor list whose membership is a full rectangle is connected. -/
theorem rect_connected (l : List Cell) (r1 r2 c1 c2 : ℤ)
    (hmem : ∀ x : Cell, x ∈ l ↔ (r1 ≤ x.1 ∧ x.1 ≤ r2 ∧ c1 ≤ x.2 ∧ x.2 ≤ c2)) :
    connectedL l := by
  intro a ha b hb
  obtain ⟨a1, a2⟩ := a
  obtain ⟨b1, b2⟩ := b
  rw [hmem] at ha hb
  dsimp only at ha hb
  refine Relation.ReflTransGen.trans
    (reach_horiz l r1 r2 c1 c2 hmem a1 a2 b2 ⟨ha.1, ha.2.1⟩ ⟨ha.2.2.1, ha.2.2.2⟩
      ⟨hb.2.2.1, hb.2.2.2⟩)
    (reach_vert l r1 r2 c1 c2 hmem a1 b1 b2 ⟨hb.2.2.1, hb.2.2.2⟩ ⟨ha.1, ha.2.1⟩
      ⟨hb.1, hb.2.1⟩)

/-! ### Map generation: the growth-loop invariant -/

/-- The successor equation of the growth loop with its `let`s expanded. -/
theorem gen_loop_succ (g : Rng) (gl gw : Nat) (prob : ℚ) (n : Nat) (st : GenSt) :
    gen_loop g gl gw prob (n + 1) st =
      if st.attempts < 3 ∨ st.blocks.length < 7 then
        if randFloatLe g st.idx (if 7 ≤ st.blocks.length then prob else 1) = true then
          if (pick_loop g gl gw st.placeholders st.blocks
              (draw_cell g (st.idx + 1) gl gw) st.attempts (st.idx + 2)).2.1 = 10 then
            .ok { st with
              attempts := (pick_loop g gl gw st.placeholders st.blocks
                (draw_cell g (st.idx + 1) gl gw) st.attempts (st.idx + 2)).2.1,
              idx := (pick_loop g gl gw st.placeholders st.blocks
                (draw_cell g (st.idx + 1) gl gw) st.attempts (st.idx + 2)).2.2 }
          else
            gen_loop g gl gw prob n
              ⟨(downgrade_dirs gl gw (pick_loop g gl gw st.placeholders st.blocks
                    (draw_cell g (st.idx + 1) gl gw) st.attempts (st.idx + 2)).1 DIRECTIONS
                  (classify_place gl gw st.placeholders st.blocks
                    (pick_loop g gl gw st.placeholders st.blocks
                      (draw_cell g (st.idx + 1) gl gw) st.attempts (st.idx + 2)).1).1
                  (classify_place gl gw st.placeholders st.blocks
                    (pick_loop g gl gw st.placeholders st.blocks
                      (draw_cell g (st.idx + 1) gl gw) st.attempts (st.idx + 2)).1).2).1,
                (downgrade_dirs gl gw (pick_loop g gl gw st.placeholders st.blocks
                    (draw_cell g (st.idx + 1) gl gw) st.attempts (st.idx + 2)).1 DIRECTIONS
                  (classify_place gl gw st.placeholders st.blocks
                    (pick_loop g gl gw st.placeholders st.blocks
                      (draw_cell g (st.idx + 1) gl gw) st.attempts (st.idx + 2)).1).1
                  (classify_place gl gw st.placeholders st.blocks
                    (pick_loop g gl gw st.placeholders st.blocks
                      (draw_cell g (st.idx + 1) gl gw) st.attempts (st.idx + 2)).1).2).2,
                0,
                (pick_loop g gl gw st.placeholders st.blocks
                  (draw_cell g (st.idx + 1) gl gw) st.attempts (st.idx + 2)).2.2⟩
        else
          gen_loop g gl gw prob n { st with attempts := st.attempts + 1, idx := st.idx + 1 }
      else
        .ok st := rfl

/-- Every state the growth loop hands back has duplicate-free blocks and a
connected free floor: each placement was gated by the `is_map_accessible`
check on exactly the free set that remains, and the downgrade sweep only moves
cells between the two station sets. -/
theorem gen_loop_inv (g : Rng) (gl gw : Nat) (prob : ℚ) :
    ∀ (fuel : Nat) (st st' : GenSt),
      gen_loop g gl gw prob fuel st = .ok st' →
      st.attempts ≤ 3 → st.blocks.Nodup →
      connectedL (map_free gl gw st.placeholders st.blocks) →
      st'.blocks.Nodup ∧ connectedL (map_free gl gw st'.placeholders st'.blocks) := by
  intro fuel
  induction fuel with
  | zero =>
    intro st st' h
    exact absurd h (by rw [gen_loop]; simp)
  | succ n ih =>
    intro st st' h ha hnd hconn
    rw [gen_loop_succ] at h
    by_cases hcond : st.attempts < 3 ∨ st.blocks.length < 7
    case neg =>
      rw [if_neg hcond] at h
      have hst' : st' = st := (Except.ok.inj h).symm
      rw [hst']
      exact ⟨hnd, hconn⟩
    case pos =>
      rw [if_pos hcond] at h
      by_cases hrand : randFloatLe g st.idx
          (if 7 ≤ st.blocks.length then prob else 1) = true
      case neg =>
        rw [if_neg hrand] at h
        refine ih _ _ h ?_ hnd hconn
        by_cases hlen : 7 ≤ st.blocks.length
        · have h3 : st.attempts < 3 := by
            rcases hcond with h4 | h4
            · exact h4
            · omega
          show st.attempts + 1 ≤ 3
          omega
        · rw [if_neg hlen] at hrand
          exact absurd (randFloatLe_one g st.idx) hrand
      case pos =>
        rw [if_pos hrand] at h
        set r := pick_loop g gl gw st.placeholders st.blocks
          (draw_cell g (st.idx + 1) gl gw) st.attempts (st.idx + 2) with hrdef
        by_cases h10 : r.2.1 = 10
        case pos =>
          rw [if_pos h10] at h
          have hst' : st' = { st with attempts := r.2.1, idx := r.2.2 } :=
            (Except.ok.inj h).symm
          rw [hst']
          exact ⟨hnd, hconn⟩
        case neg =>
          rw [if_neg h10] at h
          have hspec := pick_loop_spec g gl gw st.placeholders st.blocks
            (draw_cell g (st.idx + 1) gl gw) st.attempts (st.idx + 2) (by omega)
          rw [← hrdef] at hspec
          have hbad : bad_candidate gl gw st.placeholders st.blocks r.1 = false := by
            rcases hspec.1 with h1 | h1
            · exact absurd h1 h10
            · exact h1
          obtain ⟨hcb, hcp, hacc⟩ := bad_candidate_false gl gw st.placeholders st.blocks _ hbad
          have hfree : connectedL (free_spaces gl gw st.placeholders st.blocks r.1) :=
            is_map_accessible_connected _ hacc
          refine ih _ _ h (show (0 : ℕ) ≤ 3 by omega) ?_ ?_
          · exact downgrade_nodup gl gw _ DIRECTIONS _ _
              (classify_nodup gl gw st.placeholders st.blocks _ hnd)
          · refine connectedL_congr _ _ ?_ hfree
            intro x
            rw [mem_free_spaces, mem_map_free]
            dsimp only
            have key := (downgrade_union gl gw r.1 DIRECTIONS
              (classify_place gl gw st.placeholders st.blocks r.1).1
              (classify_place gl gw st.placeholders st.blocks r.1).2 x).trans
              (classify_union gl gw st.placeholders st.blocks r.1 x)
            constructor
            · rintro ⟨k0, k1, k2, k3, k4, k5, k6⟩
              refine ⟨k0, k1, k2, k3, fun hm => ?_, fun hm => ?_⟩
              · rcases key.1 (Or.inl hm) with hh | hh | hh
                · exact k4 hh
                · exact k5 hh
                · exact k6 hh
              · rcases key.1 (Or.inr hm) with hh | hh | hh
                · exact k4 hh
                · exact k5 hh
                · exact k6 hh
            · rintro ⟨k0, k1, k2, k3, k4, k5⟩
              refine ⟨k0, k1, k2, k3, fun hm => ?_, fun hm => ?_, fun hm => ?_⟩
              · rcases key.2 (Or.inl hm) with hh | hh
                · exact k4 hh
                · exact k5 hh
              · rcases key.2 (Or.inr (Or.inl hm)) with hh | hh
                · exact k4 hh
                · exact k5 hh
              · rcases key.2 (Or.inr (Or.inr hm)) with hh | hh
                · exact k4 hh
                · exact k5 hh

/-! ### Map generation: the specialisation phase -/

/-- Bind on a success passes the value on. -/
theorem except_ok_bind {ε α β : Type} (a : α) (f : α → Except ε β) :
    (Except.ok a >>= f : Except ε β) = f a := rfl

/-- Bind on a failure propagates the failure. -/
theorem except_error_bind {ε α β : Type} (e : ε) (f : α → Except ε β) :
    (Except.error e >>= f : Except ε β) = Except.error e := rfl

/-- `pure` is `ok`. -/
theorem except_pure {ε α : Type} (a : α) : (pure a : Except ε α) = Except.ok a := rfl

/-- `perm_cons_erase` for an arbitrary lawful `BEq` instance. -/
theorem perm_cons_erase_beq {α : Type} [BEq α] [LawfulBEq α] {a : α} {l : List α}
    (h : a ∈ l) : l.Perm (a :: l.erase a) := by
  induction l with
  | nil => cases h
  | cons x xs ih =>
    rcases List.mem_cons.1 h with rfl | hmem
    · rw [List.erase_cons_head]
    · by_cases hx : x = a
      · subst hx
        rw [List.erase_cons_head]
      · rw [List.erase_cons_tail (by simp [hx])]
        exact ((ih hmem).cons x).trans (List.Perm.swap a x _)

/-- A successful draw takes a member and removes it. -/
theorem draw_one_ok (g : Rng) (idx : Nat) (bl : List Cell) (c : Cell) (bl' : List Cell)
    (idx' : Nat) (h : draw_one g idx bl = .ok (c, bl', idx')) :
    c ∈ bl ∧ bl' = bl.erase c ∧ idx' = idx + 1 := by
  rw [draw_one] at h
  split at h
  · exact absurd h (by simp)
  · rename_i hlen
    have hpos : 0 < bl.length := Nat.pos_of_ne_zero hlen
    have hk : randInt g idx bl.length < bl.length := Nat.mod_lt _ hpos
    have hmem : bl.getD (randInt g idx bl.length) (0, 0) ∈ bl := by
      rw [List.getD_eq_getElem?_getD, List.getElem?_eq_getElem hk]
      exact List.getElem_mem hk
    have h' := Except.ok.inj h
    have h1 : bl.getD (randInt g idx bl.length) (0, 0) = c := congrArg Prod.fst h'
    have h2 : bl.erase (bl.getD (randInt g idx bl.length) (0, 0)) = bl' :=
      congrArg (fun t => t.2.1) h'
    have h3 : idx + 1 = idx' := congrArg (fun t => t.2.2) h'
    subst h2
    subst h3
    rw [h1]
    exact ⟨h1 ▸ hmem, rfl, rfl⟩

/-- The promotion loop only appends to its accumulator, and accumulator plus
leftover is a permutation of accumulator plus input. -/
theorem promote_aux_spec (g : Rng) (prob : ℚ) :
    ∀ (n : Nat) (bl acc : List Cell) (idx : Nat), bl.length ≤ n →
      (∃ ext, (promote_aux g prob n bl acc idx).2.1 = acc ++ ext) ∧
      ((promote_aux g prob n bl acc idx).2.1 ++ (promote_aux g prob n bl acc idx).1).Perm
        (acc ++ bl) := by
  intro n
  induction n with
  | zero =>
    intro bl acc idx hlen
    have hbl : bl = [] := List.length_eq_zero.1 (Nat.le_zero.1 hlen)
    subst hbl
    exact ⟨⟨[], by simp [promote_aux]⟩, by simp [promote_aux]⟩
  | succ n ih =>
    intro bl acc idx hlen
    rw [promote_aux]
    split
    · rename_i hbl
      subst hbl
      exact ⟨⟨[], by simp⟩, by simp⟩
    · rename_i hbl
      split
      · rename_i hrand
        have hpos : 0 < bl.length := List.length_pos.2 hbl
        have hk : randInt g (idx + 1) bl.length < bl.length := Nat.mod_lt _ hpos
        have hmem : bl.getD (randInt g (idx + 1) bl.length) (0, 0) ∈ bl := by
          rw [List.getD_eq_getElem?_getD, List.getElem?_eq_getElem hk]
          exact List.getElem_mem hk
        have hlen2 : (bl.erase (bl.getD (randInt g (idx + 1) bl.length) (0, 0))).length ≤ n := by
          rw [List.length_erase_of_mem hmem]
          omega
        obtain ⟨⟨ext, hext⟩, hperm⟩ :=
          ih (bl.erase (bl.getD (randInt g (idx + 1) bl.length) (0, 0)))
            (acc ++ [bl.getD (randInt g (idx + 1) bl.length) (0, 0)]) (idx + 2) hlen2
        refine ⟨⟨[bl.getD (randInt g (idx + 1) bl.length) (0, 0)] ++ ext, ?_⟩, ?_⟩
        · rw [hext, List.append_assoc]
        · refine hperm.trans ?_
          rw [List.append_assoc]
          simpa using List.Perm.append_left acc (perm_cons_erase_beq hmem).symm
      · exact ⟨⟨[], by simp⟩, by simp⟩

/-- Same statement for the wrapper. -/
theorem promote_loop_spec (g : Rng) (prob : ℚ) (bl acc : List Cell) (idx : Nat) :
    (∃ ext, (promote_loop g prob bl acc idx).2.1 = acc ++ ext) ∧
    ((promote_loop g prob bl acc idx).2.1 ++ (promote_loop g prob bl acc idx).1).Perm
      (acc ++ bl) :=
  promote_aux_spec g prob bl.length bl acc idx (le_refl _)

/-- Decomposition of a successful `generate_map` run: the growth loop
succeeded, the placeholders are the loop's, the stations of the result are a
permutation of the loop's block set, and there is at least one chopping and one
cooking block. -/
theorem generate_map_ok (g : Rng) (gl gw : Nat) (prob : ℚ) (fuel : Nat) (m : MapResult)
    (h : generate_map g gl gw prob fuel = .ok m) :
    ∃ st : GenSt,
      gen_loop g gl gw prob fuel
          ⟨init_placeholders gl gw, init_blocks gl gw, 0, 0⟩ = .ok st ∧
      m.placeholders = st.placeholders ∧
      (occupied_blocks m).Perm st.blocks ∧
      m.chopping ≠ [] ∧ m.cooking ≠ [] := by
  rw [generate_map] at h
  cases hst : gen_loop g gl gw prob fuel ⟨init_placeholders gl gw, init_blocks gl gw, 0, 0⟩ with
  | error e => rw [hst, except_error_bind] at h; exact Except.noConfusion h
  | ok st =>
  rw [hst] at h
  simp only [except_ok_bind] at h
  cases hd0 : draw_one g st.idx st.blocks with
  | error e => rw [hd0, except_error_bind] at h; exact Except.noConfusion h
  | ok t0 =>
  obtain ⟨b0, bl1, i1⟩ := t0
  rw [hd0] at h
  simp only [except_ok_bind] at h
  cases hd1 : draw_one g i1 bl1 with
  | error e => rw [hd1, except_error_bind] at h; exact Except.noConfusion h
  | ok t1 =>
  obtain ⟨b1, bl2, i2⟩ := t1
  rw [hd1] at h
  simp only [except_ok_bind] at h
  cases hd2 : draw_one g i2 bl2 with
  | error e => rw [hd2, except_error_bind] at h; exact Except.noConfusion h
  | ok t2 =>
  obtain ⟨b2, bl3, i3⟩ := t2
  rw [hd2] at h
  simp only [except_ok_bind] at h
  cases hd3 : draw_one g i3 bl3 with
  | error e => rw [hd3, except_error_bind] at h; exact Except.noConfusion h
  | ok t3 =>
  obtain ⟨b3, bl4, i4⟩ := t3
  rw [hd3] at h
  simp only [except_ok_bind] at h
  cases hd4 : draw_one g i4 bl4 with
  | error e => rw [hd4, except_error_bind] at h; exact Except.noConfusion h
  | ok t4 =>
  obtain ⟨b4, bl5, i5⟩ := t4
  rw [hd4] at h
  simp only [except_ok_bind] at h
  cases hd5 : draw_one g i5 bl5 with
  | error e => rw [hd5, except_error_bind] at h; exact Except.noConfusion h
  | ok t5 =>
  obtain ⟨b5, bl6, i6⟩ := t5
  rw [hd5] at h
  simp only [except_ok_bind] at h
  cases hd6 : draw_one g i6 bl6 with
  | error e => rw [hd6, except_error_bind] at h; exact Except.noConfusion h
  | ok t6 =>
  obtain ⟨b6, bl7, i7⟩ := t6
  rw [hd6] at h
  simp only [except_ok_bind, except_pure, Except.ok.injEq] at h
  obtain ⟨c0, e0, hi0⟩ := draw_one_ok _ _ _ _ _ _ hd0
  obtain ⟨c1, e1, hi1⟩ := draw_one_ok _ _ _ _ _ _ hd1
  obtain ⟨c2, e2, hi2⟩ := draw_one_ok _ _ _ _ _ _ hd2
  obtain ⟨c3, e3, hi3⟩ := draw_one_ok _ _ _ _ _ _ hd3
  obtain ⟨c4, e4, hi4⟩ := draw_one_ok _ _ _ _ _ _ hd4
  obtain ⟨c5, e5, hi5⟩ := draw_one_ok _ _ _ _ _ _ hd5
  obtain ⟨c6, e6, hi6⟩ := draw_one_ok _ _ _ _ _ _ hd6
  have hp1 : st.blocks.Perm (b0 :: bl1) := e0 ▸ perm_cons_erase_beq c0
  have hp2 : bl1.Perm (b1 :: bl2) := e1 ▸ perm_cons_erase_beq c1
  have hp3 : bl2.Perm (b2 :: bl3) := e2 ▸ perm_cons_erase_beq c2
  have hp4 : bl3.Perm (b3 :: bl4) := e3 ▸ perm_cons_erase_beq c3
  have hp5 : bl4.Perm (b4 :: bl5) := e4 ▸ perm_cons_erase_beq c4
  have hp6 : bl5.Perm (b5 :: bl6) := e5 ▸ perm_cons_erase_beq c5
  have hp7 : bl6.Perm (b6 :: bl7) := e6 ▸ perm_cons_erase_beq c6
  obtain ⟨⟨extC, hextC⟩, hpermC⟩ := promote_loop_spec g prob bl7 [b5] i7
  obtain ⟨⟨extK, hextK⟩, hpermK⟩ := promote_loop_spec g prob
    (promote_loop g prob bl7 [b5] i7).1 [b6] (promote_loop g prob bl7 [b5] i7).2.2
  have hR : st.blocks.Perm (b0 :: b1 :: b2 :: b3 :: b4 :: b5 :: b6 :: bl7) :=
    hp1.trans ((hp2.trans ((hp3.trans ((hp4.trans ((hp5.trans
      ((hp6.trans (hp7.cons b5)).cons b4)).cons b3)).cons b2)).cons b1)).cons b0)
  refine ⟨st, rfl, ?_, ?_, ?_, ?_⟩
  · rw [← h]
  · rw [← h, occupied_blocks]
    dsimp only
    rw [List.append_assoc, List.append_assoc]
    have hA : ((promote_loop g prob (promote_loop g prob bl7 [b5] i7).1 [b6]
        (promote_loop g prob bl7 [b5] i7).2.2).2.1 ++
        (promote_loop g prob (promote_loop g prob bl7 [b5] i7).1 [b6]
          (promote_loop g prob bl7 [b5] i7).2.2).1).Perm
        (b6 :: (promote_loop g prob bl7 [b5] i7).1) := hpermK
    have hB : ((promote_loop g prob bl7 [b5] i7).2.1 ++
        ((promote_loop g prob (promote_loop g prob bl7 [b5] i7).1 [b6]
          (promote_loop g prob bl7 [b5] i7).2.2).2.1 ++
        (promote_loop g prob (promote_loop g prob bl7 [b5] i7).1 [b6]
          (promote_loop g prob bl7 [b5] i7).2.2).1)).Perm (b6 :: b5 :: bl7) := by
      refine (List.Perm.append_left _ hA).trans ?_
      refine List.perm_middle.trans ?_
      exact List.Perm.cons b6 hpermC
    refine (List.Perm.append_left _ hB).trans ?_
    refine (List.Perm.append_left _ (List.Perm.swap b5 b6 bl7)).trans ?_
    exact hR.symm
  · rw [← h]
    show (promote_loop g prob bl7 [b5] i7).2.1 ≠ []
    rw [hextC]
    simp
  · rw [← h]
    show (promote_loop g prob (promote_loop g prob bl7 [b5] i7).1 [b6]
      (promote_loop g prob bl7 [b5] i7).2.2).2.1 ≠ []
    rw [hextK]
    simp

/-! ### C1: map-wide connectivity of generated maps -/

/-- C1: for every map produced by `generate_map`, every free cell (a cell that
is neither a placeholder nor a station) is reachable from every other free cell
by moves between 4-orthogonally adjacent free cells: the border start is a full
interior rectangle, and every growth-loop placement was gated by the
`is_map_accessible` BFS on exactly the free set it leaves behind, while the
role draws and promotions only relabel already-placed stations. -/
theorem c1_map_connectivity (g : Rng) (gl gw : Nat) (prob : ℚ) (fuel : Nat)
    (m : MapResult) (h : generate_map g gl gw prob fuel = .ok m) :
    connectedL (map_free_of gl gw m) := by
  obtain ⟨st, hst, hph, hperm, _, _⟩ := generate_map_ok g gl gw prob fuel m h
  have hinit : connectedL (map_free gl gw (init_placeholders gl gw) (init_blocks gl gw)) :=
    rect_connected _ 1 ((gw : ℤ) - 2) 1 ((gl : ℤ) - 2) (fun x => mem_map_free_init gl gw x)
  obtain ⟨hnd, hconn⟩ := gen_loop_inv g gl gw prob fuel
    ⟨init_placeholders gl gw, init_blocks gl gw, 0, 0⟩ st hst (Nat.zero_le 3)
    (init_blocks_nodup gl gw) hinit
  rw [map_free_of, hph]
  refine connectedL_congr _ _ (fun x => ?_) hconn
  rw [mem_map_free, mem_map_free]
  constructor
  · rintro ⟨h0, h1, h2, h3, h4, h5⟩
    exact ⟨h0, h1, h2, h3, h4, fun hc => h5 (hperm.mem_iff.1 hc)⟩
  · rintro ⟨h0, h1, h2, h3, h4, h5⟩
    exact ⟨h0, h1, h2, h3, h4, fun hc => h5 (hperm.mem_iff.2 hc)⟩

/-- C1 witness: a concrete successful 5×4 run, whose free floor is connected. -/
theorem c1_map_connectivity_witness :
    generate_map (fun _ => 1) 5 4 0 10 = Except.ok
      { placeholders := [((0 : ℤ), (0 : ℤ)), (0, 4), (3, 0), (3, 4)],
        plain := [(1, 0), (0, 3), (3, 3)],
        chopping := [(0, 2)],
        cooking := [(3, 2)],
        fish_crate := (1, 4),
        lettuce_crate := (2, 0),
        bread_crate := (2, 4),
        serving := (0, 1),
        trash := (3, 1) } ∧
    connectedL (map_free_of 5 4
      { placeholders := [((0 : ℤ), (0 : ℤ)), (0, 4), (3, 0), (3, 4)],
        plain := [(1, 0), (0, 3), (3, 3)],
        chopping := [(0, 2)],
        cooking := [(3, 2)],
        fish_crate := (1, 4),
        lettuce_crate := (2, 0),
        bread_crate := (2, 4),
        serving := (0, 1),
        trash := (3, 1) }) :=
  ⟨by decide, c1_map_connectivity (fun _ => 1) 5 4 0 10 _ (by decide)⟩

/-! ### C5: station counts of generated maps -/

/-- C5 counterexample: the smallest grid request, a single interior cell (a
3×3 grid), does not yield the seven special stations: the placement loop
exhausts its ten retries with fewer than seven stations, the growth loop
returns early, and the fifth role draw hits an empty pool — the embedded
`random.randint(0, -1)` `ValueError` — instead of producing a map. -/
theorem c5_counterexample :
    generate_map (fun _ => 4) 3 3 0 10 = .error .emptyDraw := by decide

/-- C5 (amended): every map a *successful* `generate_map` run returns carries
exactly one fish crate, one lettuce crate, one bread crate, one serving and one
trash station, at least one chopping and at least one cooking station, on
pairwise distinct cells; the single-interior-cell request, however, errors out
rather than respecting the minimum-seven floor. -/
theorem c5_amended (g : Rng) (gl gw : Nat) (prob : ℚ) (fuel : Nat) (m : MapResult)
    (h : generate_map g gl gw prob fuel = .ok m) :
    (all_stations m).countP (fun p => decide (p.2 = Role.fishCrate)) = 1 ∧
    (all_stations m).countP (fun p => decide (p.2 = Role.lettuceCrate)) = 1 ∧
    (all_stations m).countP (fun p => decide (p.2 = Role.breadCrate)) = 1 ∧
    (all_stations m).countP (fun p => decide (p.2 = Role.serving)) = 1 ∧
    (all_stations m).countP (fun p => decide (p.2 = Role.trash)) = 1 ∧
    1 ≤ (all_stations m).countP (fun p => decide (p.2 = Role.chopping)) ∧
    1 ≤ (all_stations m).countP (fun p => decide (p.2 = Role.cooking)) ∧
    (occupied_blocks m).Nodup := by
  obtain ⟨st, hst, hph, hperm, hch, hck⟩ := generate_map_ok g gl gw prob fuel m h
  have hinit : connectedL (map_free gl gw (init_placeholders gl gw) (init_blocks gl gw)) :=
    rect_connected _ 1 ((gw : ℤ) - 2) 1 ((gl : ℤ) - 2) (fun x => mem_map_free_init gl gw x)
  obtain ⟨hnd, -⟩ := gen_loop_inv g gl gw prob fuel
    ⟨init_placeholders gl gw, init_blocks gl gw, 0, 0⟩ st hst (Nat.zero_le 3)
    (init_blocks_nodup gl gw) hinit
  refine ⟨?_, ?_, ?_, ?_, ?_, ?_, ?_, hperm.nodup_iff.2 hnd⟩ <;>
    simp [all_stations, List.countP_append, List.countP_map, List.countP_cons,
      Function.comp_def] <;>
    first
      | exact hch
      | exact hck
      | exact List.length_pos.2 hch
      | exact List.length_pos.2 hck

/-- C5 witness: the counts on a concrete successful 5×4 run. -/
theorem c5_amended_witness :
    generate_map (fun _ => 1) 5 4 0 10 = Except.ok
      { placeholders := [((0 : ℤ), (0 : ℤ)), (0, 4), (3, 0), (3, 4)],
        plain := [(1, 0), (0, 3), (3, 3)],
        chopping := [(0, 2)],
        cooking := [(3, 2)],
        fish_crate := (1, 4),
        lettuce_crate := (2, 0),
        bread_crate := (2, 4),
        serving := (0, 1),
        trash := (3, 1) } ∧
    ((all_stations
      { placeholders := [((0 : ℤ), (0 : ℤ)), (0, 4), (3, 0), (3, 4)],
        plain := [(1, 0), (0, 3), (3, 3)],
        chopping := [(0, 2)],
        cooking := [(3, 2)],
        fish_crate := (1, 4),
        lettuce_crate := (2, 0),
        bread_crate := (2, 4),
        serving := (0, 1),
        trash := (3, 1) }).countP (fun p => decide (p.2 = Role.fishCrate)) = 1 ∧
    (all_stations
      { placeholders := [((0 : ℤ), (0 : ℤ)), (0, 4), (3, 0), (3, 4)],
        plain := [(1, 0), (0, 3), (3, 3)],
        chopping := [(0, 2)],
        cooking := [(3, 2)],
        fish_crate := (1, 4),
        lettuce_crate := (2, 0),
        bread_crate := (2, 4),
        serving := (0, 1),
        trash := (3, 1) }).countP (fun p => decide (p.2 = Role.lettuceCrate)) = 1 ∧
    (all_stations
      { placeholders := [((0 : ℤ), (0 : ℤ)), (0, 4), (3, 0), (3, 4)],
        plain := [(1, 0), (0, 3), (3, 3)],
        chopping := [(0, 2)],
        cooking := [(3, 2)],
        fish_crate := (1, 4),
        lettuce_crate := (2, 0),
        bread_crate := (2, 4),
        serving := (0, 1),
        trash := (3, 1) }).countP (fun p => decide (p.2 = Role.breadCrate)) = 1 ∧
    (all_stations
      { placeholders := [((0 : ℤ), (0 : ℤ)), (0, 4), (3, 0), (3, 4)],
        plain := [(1, 0), (0, 3), (3, 3)],
        chopping := [(0, 2)],
        cooking := [(3, 2)],
        fish_crate := (1, 4),
        lettuce_crate := (2, 0),
        bread_crate := (2, 4),
        serving := (0, 1),
        trash := (3, 1) }).countP (fun p => decide (p.2 = Role.serving)) = 1 ∧
    (all_stations
      { placeholders := [((0 : ℤ), (0 : ℤ)), (0, 4), (3, 0), (3, 4)],
        plain := [(1, 0), (0, 3), (3, 3)],
        chopping := [(0, 2)],
        cooking := [(3, 2)],
        fish_crate := (1, 4),
        lettuce_crate := (2, 0),
        bread_crate := (2, 4),
        serving := (0, 1),
        trash := (3, 1) }).countP (fun p => decide (p.2 = Role.trash)) = 1 ∧
    1 ≤ (all_stations
      { placeholders := [((0 : ℤ), (0 : ℤ)), (0, 4), (3, 0), (3, 4)],
        plain := [(1, 0), (0, 3), (3, 3)],
        chopping := [(0, 2)],
        cooking := [(3, 2)],
        fish_crate := (1, 4),
        lettuce_crate := (2, 0),
        bread_crate := (2, 4),
        serving := (0, 1),
        trash := (3, 1) }).countP (fun p => decide (p.2 = Role.chopping)) ∧
    1 ≤ (all_stations
      { placeholders := [((0 : ℤ), (0 : ℤ)), (0, 4), (3, 0), (3, 4)],
        plain := [(1, 0), (0, 3), (3, 3)],
        chopping := [(0, 2)],
        cooking := [(3, 2)],
        fish_crate := (1, 4),
        lettuce_crate := (2, 0),
        bread_crate := (2, 4),
        serving := (0, 1),
        trash := (3, 1) }).countP (fun p => decide (p.2 = Role.cooking)) ∧
    (occupied_blocks
      { placeholders := [((0 : ℤ), (0 : ℤ)), (0, 4), (3, 0), (3, 4)],
        plain := [(1, 0), (0, 3), (3, 3)],
        chopping := [(0, 2)],
        cooking := [(3, 2)],
        fish_crate := (1, 4),
        lettuce_crate := (2, 0),
        bread_crate := (2, 4),
        serving := (0, 1),
        trash := (3, 1) }).Nodup) :=
  ⟨by decide, c5_amended (fun _ => 1) 5 4 0 10 _ (by decide)⟩

end PixelCooked
